import Mathlib

/-!
# Telegram Desktop: the group call roster (`Data::GroupCall`)

The data model below is the one declared in
`Telegram/SourceFiles/data/data_group_call.h`: `LastSpokeTimes`,
`GroupCallParticipant`, `GroupCall::ParticipantUpdate`,
`GroupCall::ApplySliceSource` and the private fields of `GroupCall`, with the
initial values the header gives them.

The header declares the member functions of `GroupCall` without bodies.  Each
operation below whose doc comment starts with "Modelled from the spec:" follows
the words of the specification (sections 4.1, 4.2 and 4.4), and names the
declaration of the header it stands for.

Conventions of the embedding:
* `not_null<PeerData*>` and `PeerId` are an opaque key, `Nat`;
* `uint32`, `uint64` are `Nat`, `int`, `TimeId`, `crl::time`, `mtpRequestId` are `Int`
  (no arithmetic below can overflow: the only arithmetic is `version + 1` on a
  comparison, never stored);
* `base::flat_map<K, V>` is an association list, looked up by key;
* `rpl::variable<T>` is its current value, `rpl::event_stream<T>` is the list of the
  events fired so far (oldest first), `rpl::event_stream<>` is their number.
-/

namespace Data

/-- Identity of a peer (`not_null<PeerData*>`, `PeerId`): an opaque key. -/
abbrev PeerKey := Nat

/-- The struct `LastSpokeTimes` of the header. -/
structure LastSpokeTimes where
  anything : Int := 0
  voice : Int := 0
deriving DecidableEq, Repr

/-- The struct `GroupCallParticipant` of the header, field by field. -/
structure GroupCallParticipant where
  peer : PeerKey
  date : Int := 0
  lastActive : Int := 0
  raisedHandRating : Nat := 0
  ssrc : Nat := 0
  volume : Int := 0
  applyVolumeFromMin : Bool := true
  sounding : Bool := false
  speaking : Bool := false
  muted : Bool := false
  mutedByMe : Bool := false
  canSelfUnmute : Bool := false
  onlyMinLoaded : Bool := false
deriving DecidableEq, Repr

/-- The alias `GroupCall::Participant`. -/
abbrev Participant := GroupCallParticipant

/-- The struct `GroupCall::ParticipantUpdate`: the value before and after a change. -/
structure ParticipantUpdate where
  was : Option Participant
  now : Option Participant
deriving DecidableEq, Repr

/-- The enum `GroupCall::ApplySliceSource`. -/
inductive ApplySliceSource where
  | SliceLoaded
  | UnknownLoaded
  | UpdateReceived
deriving DecidableEq, Repr

/-- A `base::flat_map` keyed by a number: an association list. -/
abbrev FlatMap (β : Type) := List (Nat × β)

namespace FlatMap

/-- Lookup of a key (`find`): the value of the first entry with that key. -/
def find {β : Type} : FlatMap β → Nat → Option β
  | [], _ => none
  | (k, v) :: rest, key => if k = key then some v else find rest key

/-- Removal of a key (`erase`). -/
def erase {β : Type} (m : FlatMap β) (key : Nat) : FlatMap β :=
  m.filter (fun e => decide (e.1 ≠ key))

/-- Assignment `m[key] = value`: the entry is replaced when the key is present and
is added in key order otherwise. -/
def assign {β : Type} : FlatMap β → Nat → β → FlatMap β
  | [], key, value => [(key, value)]
  | (k, v) :: rest, key, value =>
    if key < k then (key, value) :: (k, v) :: rest
    else if key = k then (key, value) :: rest
    else (k, v) :: assign rest key value

end FlatMap

/-- The private state of `GroupCall`, field by field as the header declares it.
`_speakingByActiveFinishTimer` is the time the one-shot timer is armed for, if any. -/
structure GroupCall where
  _id : Nat := 0
  _accessHash : Nat := 0
  _peer : PeerKey
  _version : Int := 0
  _participantsRequestId : Int := 0
  _reloadRequestId : Int := 0
  _title : String := ""
  _participants : List Participant := []
  _participantPeerBySsrc : FlatMap PeerKey := []
  _speakingByActiveFinishes : FlatMap Int := []
  _speakingByActiveFinishTimer : Option Int := none
  _nextOffset : String := ""
  _fullCount : Int := 0
  _recordStartDate : Int := 0
  _unknownSpokenSsrcs : FlatMap LastSpokeTimes := []
  _unknownSpokenPeerIds : FlatMap LastSpokeTimes := []
  _unknownParticipantPeersRequestId : Int := 0
  _participantUpdates : List ParticipantUpdate := []
  _participantsSliceAdded : Nat := 0
  _joinMuted : Bool := false
  _canChangeJoinMuted : Bool := true
  _allReceived : Bool := false
deriving DecidableEq, Repr

namespace GroupCall

/-- The constructor `GroupCall(peer, id, accessHash)`: every other field starts at
the initial value of its declaration. -/
def create (peer : PeerKey) (id accessHash : Nat) : GroupCall :=
  { _id := id, _accessHash := accessHash, _peer := peer }

/-- The constant `GroupCall::kSoundStatusKeptFor = crl::time(350)`; a `crl::time` counts
milliseconds. -/
def kSoundStatusKeptFor : Int := 350

/-- The accessor `participants()`: the stored sequence. -/
def participants (g : GroupCall) : List Participant :=
  g._participants

/-- Modelled from the spec: `participantPeerBySsrc` (declared in the header, body not
in the sources) is the `lookupBySsrc` of section 4.1, a lookup in the reverse index. -/
def participantPeerBySsrc (g : GroupCall) (ssrc : Nat) : Option PeerKey :=
  FlatMap.find g._participantPeerBySsrc ssrc

/-- The accessor `joinMuted()`. -/
def joinMuted (g : GroupCall) : Bool :=
  g._joinMuted

/-- The accessor `canChangeJoinMuted()`. -/
def canChangeJoinMuted (g : GroupCall) : Bool :=
  g._canChangeJoinMuted

end GroupCall

/-- The participant of a sequence with a given peer (the first one found). -/
def findParticipant (l : List Participant) (peer : PeerKey) : Option Participant :=
  l.find? (fun q => decide (q.peer = peer))

/-- Modelled from the spec: the re-sorting step of section 4.1 ("participants are
kept in a stable custom order", "re-sorting is triggered only by events that can
change ordering-relevant fields").  Neither its body nor the moment it runs is in
the sources, so it is a parameter of every mutation: a function that is given the
value of the changed participant before and after the change and returns the
sequence to store. -/
abbrev OrderPolicy := Option Participant → Option Participant → List Participant → List Participant

/-- What every re-sorting step does: it rearranges the sequence (it never adds, drops
or alters a participant) and it leaves the sequence alone when the participant did
not change. -/
def OrderPolicy.Valid (ord : OrderPolicy) : Prop :=
  (∀ was now l, (ord was now l).Perm l) ∧ (∀ p l, ord (some p) (some p) l = l)

/-- The re-sorting step that never moves anything. -/
def keepOrder : OrderPolicy :=
  fun _ _ l => l

/-- The index with the mapping of a participant added; an unassigned `ssrc` (zero)
has no mapping. -/
def assignSsrc (m : FlatMap PeerKey) (ssrc : Nat) (peer : PeerKey) : FlatMap PeerKey :=
  if ssrc = 0 then m else FlatMap.assign m ssrc peer

/-- Modelled from the spec: `upsert` of section 4.1, whose code (inside the absent
body of `applyParticipantsSlice`) is not in the sources.  "Inserts if peer identity
absent, else replaces fields by value; if the new ssrc differs from the old, updates
the ssrc index accordingly (removing the stale mapping first)"; "every successful
upsert emits a participant-changed event carrying the before and after value".  The
prior value the spec returns is the `was` of the event. -/
def upsert (ord : OrderPolicy) (g : GroupCall) (p : Participant) : GroupCall :=
  match findParticipant g._participants p.peer with
  | none =>
    { g with
      _participants := ord none (some p) (g._participants ++ [p])
      _participantPeerBySsrc := assignSsrc g._participantPeerBySsrc p.ssrc p.peer
      _participantUpdates := g._participantUpdates ++ [{ was := none, now := some p }] }
  | some old =>
    { g with
      _participants :=
        ord (some old) (some p) (g._participants.map (fun q => if q.peer = p.peer then p else q))
      _participantPeerBySsrc :=
        if old.ssrc = p.ssrc then g._participantPeerBySsrc
        else assignSsrc (FlatMap.erase g._participantPeerBySsrc old.ssrc) p.ssrc p.peer
      _participantUpdates := g._participantUpdates ++ [{ was := some old, now := some p }] }

/-- Modelled from the spec: `remove` of section 4.1 (code not in the sources).
"Removes participant and its ssrc mapping (if any); returns the removed value or
not found"; the removal emits a participant-changed event without an after value. -/
def remove (ord : OrderPolicy) (g : GroupCall) (peer : PeerKey) : GroupCall :=
  match findParticipant g._participants peer with
  | none => g
  | some old =>
    { g with
      _participants := ord (some old) none (g._participants.filter (fun q => decide (q.peer ≠ peer)))
      _participantPeerBySsrc := FlatMap.erase g._participantPeerBySsrc old.ssrc
      _participantUpdates := g._participantUpdates ++ [{ was := some old, now := none }] }

/-- Modelled from the spec: the payload of one participants response, which the
header passes as `QVector<MTPGroupCallParticipant>` (a type that is not in the
sources).  Section 4.2 speaks of "a batch of fully-specified participants", of "the
slice's version" and of the pagination cursor the response advances to. -/
structure ParticipantsSlice where
  participants : List Participant
  version : Int
  nextOffset : String
deriving DecidableEq, Repr

/-- Modelled from the spec: the merge rule of a paginated slice (section 4.2):
"participants not previously known are inserted; participants already known are
merged field-by-field only if the slice's version is not older than the
participant's last-seen version".  The only version the header stores is `_version`. -/
def mergeOne (ord : OrderPolicy) (version : Int) (g : GroupCall) (p : Participant) : GroupCall :=
  match findParticipant g._participants p.peer with
  | none => upsert ord g p
  | some _ => if g._version ≤ version then upsert ord g p else g

/-- Whether a participant is one of the identities the unknown-reference ledger asks for. -/
def requested (g : GroupCall) (p : Participant) : Bool :=
  (FlatMap.find g._unknownSpokenSsrcs p.ssrc).isSome
    || (FlatMap.find g._unknownSpokenPeerIds p.peer).isSome

/-- Modelled from the spec: the merge rule of an unknown-resolution load (section
4.2): it "merges unconditionally for the requested identities only, and retires
their ledger entries". -/
def resolveOne (ord : OrderPolicy) (g : GroupCall) (p : Participant) : GroupCall :=
  if requested g p then
    let g1 := upsert ord g p
    { g1 with
      _unknownSpokenSsrcs := FlatMap.erase g1._unknownSpokenSsrcs p.ssrc
      _unknownSpokenPeerIds := FlatMap.erase g1._unknownSpokenPeerIds p.peer }
  else g

/-- Modelled from the spec: `applyParticipantsSlice(list, sliceSource)`, declared in
the header without a body, is the operation of that name in section 4.2.  A
paginated slice merges its participants, advances the pagination cursor, marks the
roster complete "when the returned slice is empty and the pagination cursor does not
advance" and fires the slice-added event; an unknown-resolution load merges the
requested identities; a diff-derived participant follows the merge rule of a
paginated slice.  No source removes a participant. -/
def applyParticipantsSlice (ord : OrderPolicy) (g : GroupCall) (slice : ParticipantsSlice)
    (sliceSource : ApplySliceSource) : GroupCall :=
  match sliceSource with
  | .SliceLoaded =>
    let g1 := slice.participants.foldl (mergeOne ord slice.version) g
    { g1 with
      _nextOffset := slice.nextOffset
      _allReceived :=
        g1._allReceived || (slice.participants.isEmpty && decide (slice.nextOffset = g._nextOffset))
      _participantsSliceAdded := g1._participantsSliceAdded + 1 }
  | .UnknownLoaded => slice.participants.foldl (resolveOne ord) g
  | .UpdateReceived => slice.participants.foldl (mergeOne ord slice.version) g

/-- Modelled from the spec: one entry of a diff batch (the type
`MTPDupdateGroupCallParticipants` is not in the sources).  Section 4.2: "each entry
is one of: participant joined/updated (upsert), participant left (remove), version
bump only". -/
inductive DiffEntry where
  | joinedOrUpdated (p : Participant)
  | left (peer : PeerKey)
  | versionBump
deriving DecidableEq, Repr

/-- Modelled from the spec: a diff batch, its entries in array order and the per-call
version it carries. -/
structure ParticipantsDiff where
  version : Int
  entries : List DiffEntry
deriving DecidableEq, Repr

/-- Modelled from the spec: one entry of an accepted diff batch.  A joined or updated
participant is "a single participant materialized from an incremental update", merged
through `applyParticipantsSlice` with the source `UpdateReceived`. -/
def applyEntry (ord : OrderPolicy) (version : Int) (g : GroupCall) : DiffEntry → GroupCall
  | .joinedOrUpdated p =>
    applyParticipantsSlice ord g
      { participants := [p], version := version, nextOffset := g._nextOffset } .UpdateReceived
  | .left peer => remove ord g peer
  | .versionBump => g

/-- Modelled from the spec: `reload()` as far as section 7 describes it: a diff that
skips ahead "triggers a forced full-reconciliation request", of which at most one is
in flight.  The request layer that hands out request ids is not in the sources: the
id of a request in flight is any non-zero number. -/
def reload (g : GroupCall) : GroupCall :=
  if g._reloadRequestId = 0 then { g with _reloadRequestId := 1 } else g

/-- Modelled from the spec: the diff entry point `applyUpdate(const
MTPDupdateGroupCallParticipants &)` / `applyUpdateChecked`, declared in the header
without a body, is `applyIncrementalDiff` of section 4.2.  The batch is applied only
when its version is exactly the current version plus one: its entries are processed
in array order and the version is stored after the whole batch.  A batch at a version
not above the current one is dropped silently; a batch that skips ahead is dropped
and asks for a reload. -/
def applyUpdate (ord : OrderPolicy) (g : GroupCall) (d : ParticipantsDiff) : GroupCall :=
  if d.version = g._version + 1 then
    let g1 := d.entries.foldl (applyEntry ord d.version) g
    { g1 with _version := d.version }
  else if d.version ≤ g._version then g
  else reload g

/-- Modelled from the spec: `setJoinMutedLocally(muted)`, declared in the header
without a body, is the "local join-mute preference setter (only effective if
CallState's changeable flag is set)" of section 4.4. -/
def setJoinMutedLocally (g : GroupCall) (muted : Bool) : GroupCall :=
  if g._canChangeJoinMuted then { g with _joinMuted := muted } else g

/-- One inbound roster operation: a participants slice from one of the three sources,
or a diff batch. -/
inductive RosterOp where
  | slice (s : ParticipantsSlice) (sliceSource : ApplySliceSource)
  | update (d : ParticipantsDiff)
deriving DecidableEq, Repr

/-- One roster operation applied to a call. -/
def applyOp (ord : OrderPolicy) (g : GroupCall) : RosterOp → GroupCall
  | .slice s sliceSource => applyParticipantsSlice ord g s sliceSource
  | .update d => applyUpdate ord g d

/-- A sequence of roster operations applied in order. -/
def applyOps (ord : OrderPolicy) (g : GroupCall) (ops : List RosterOp) : GroupCall :=
  ops.foldl (applyOp ord) g

/-- Peer identity is unique within the registry. -/
def PeersUnique (g : GroupCall) : Prop :=
  (g._participants.map (fun q => q.peer)).Nodup

/-- Every entry of the reverse index names a participant of the registry that has the
peer of the entry and whose `ssrc` is the key of the entry. -/
def IndexConsistent (g : GroupCall) : Prop :=
  ∀ ssrc peer, g.participantPeerBySsrc ssrc = some peer →
    ∃ q ∈ g._participants, q.peer = peer ∧ q.ssrc = ssrc

/-- The invariant of the registry: peers are unique and the reverse index is
consistent with the list. -/
def RosterInv (g : GroupCall) : Prop :=
  PeersUnique g ∧ IndexConsistent g

/-- Participant A of the scenarios: peer 1. -/
def partA (ssrc : Nat) : Participant :=
  { peer := 1, ssrc := ssrc }

/-- Participant B of the scenarios: peer 2. -/
def partB (ssrc : Nat) : Participant :=
  { peer := 2, ssrc := ssrc }

/-- Participant C of the scenarios: peer 3. -/
def partC (ssrc : Nat) : Participant :=
  { peer := 3, ssrc := ssrc }

/-- A call at a given version whose roster is A (ssrc 10) and B (ssrc 11). -/
def callAB (version : Int) : GroupCall :=
  { GroupCall.create 100 7 9 with
    _version := version
    _participants := [partA 10, partB 11]
    _participantPeerBySsrc := [(10, 1), (11, 2)] }

/-- A paginated slice at version zero with the given participants. -/
def sliceOf (l : List Participant) : ParticipantsSlice :=
  { participants := l, version := 0, nextOffset := "" }

/-- The diff of the scenarios: B (peer 2) leaves and C joins with ssrc 12. -/
def diffLeaveJoin (version : Int) : ParticipantsDiff :=
  { version := version, entries := [.left 2, .joinedOrUpdated (partC 12)] }

/-- A sequence of roster operations on a new call: a paginated slice with A and B,
then the diff in which B leaves and C joins. -/
def scenarioOps : List RosterOp :=
  [.slice (sliceOf [partA 10, partB 11]) .SliceLoaded, .update (diffLeaveJoin 1)]

end Data

/-!
# Telegram Desktop: the Linux main window (`platform/linux/main_window_linux.cpp`)

The functions below are translated from the bodies in that file.  What they ask of
Qt, of D-Bus and of the rest of the application is not in the sources and is a
parameter, collected in `Desktop`; the build is the one with the D-Bus integration
(`DESKTOP_APP_DISABLE_DBUS_INTEGRATION` not defined).

Conventions of the embedding:
* `int`, `int32`, `qint64` are `Int` (every value stored is a counter or a bounded
  function of one), `quint32` is a `Nat` reduced modulo `2^32` at every operation;
* `QString` is `String`, a null `QString` is the empty string;
* a pointer to an object the window owns is an `Option` of the state of the object;
* the file-level variables and the window members the functions touch are fields of
  a state that is passed in and returned.
-/

namespace Platform

/-- A `QIcon`: the null icon, or an icon told apart by a key. -/
inductive QIcon where
  | null
  | image (key : Nat)
deriving DecidableEq, Repr

/-- The test `QIcon::isNull()`. -/
def QIcon.isNull : QIcon → Bool
  | .null => true
  | .image _ => false

/-- A `QImage`, told apart by a key. -/
abbrev QImage := Nat

/-- A `QVariant`, as far as the file builds one: a 64-bit integer or a boolean. -/
inductive QVariant where
  | int64 (value : Int)
  | bool (value : Bool)
deriving DecidableEq, Repr

/-- A `QVariantMap`: at most one value per key. -/
abbrev QVariantMap := List (String × QVariant)

/-- The call `QVariantMap::insert(key, value)`: the value of the key is replaced. -/
def QVariantMap.insert (m : QVariantMap) (key : String) (value : QVariant) : QVariantMap :=
  (key, value) :: m.filter (fun e => e.1 != key)

/-- The value a `QVariantMap` holds for a key, if it holds one. -/
def QVariantMap.value (m : QVariantMap) (key : String) : Option QVariant :=
  (m.find? (fun e => e.1 == key)).map (fun e => e.2)

/-- A `QSystemTrayIcon`: the icon it shows and whether it is shown. -/
structure QSystemTrayIcon where
  icon : QIcon := .null
  visible : Bool := false
deriving DecidableEq, Repr

/-- A `StatusNotifierItem` of the tray library: an opaque value, read and changed
only through the library (see `Desktop`). -/
abbrev StatusNotifierItem := Nat

/-- A `QAction`, as far as `ForceDisabled` uses one: its `enabled` property and the
arguments of the calls of `setDisabled` made on it so far. -/
structure QAction where
  enabled : Bool := true
  setDisabledCalls : List Bool := []
deriving DecidableEq, Repr

/-- The test `QAction::isEnabled()`. -/
def QAction.isEnabled (action : QAction) : Bool :=
  action.enabled

/-- The setter `QAction::setDisabled(b)`, by its documented contract: the action is
disabled when `b` is true and enabled otherwise.  The call is recorded. -/
def QAction.setDisabled (action : QAction) (b : Bool) : QAction :=
  { enabled := !b, setDisabledCalls := action.setDisabledCalls ++ [b] }

/-- The enum `DBIWorkMode` (declared outside the file). -/
inductive DBIWorkMode where
  | dbiwmWindowAndTray
  | dbiwmTrayOnly
  | dbiwmWindowOnly
deriving DecidableEq, Repr

/-- The file-level variables of the tray icon cache, with their initial values. -/
structure TrayIconCache where
  TrayIconMuted : Bool := true
  TrayIconCount : Int := 0
  TrayIconImageBack : List (Int × QImage) := []
  TrayIcon : QIcon := .null
  TrayIconThemeName : String := ""
  TrayIconName : String := ""
deriving DecidableEq, Repr

/-- A signal sent on the session bus to the Unity launcher entry: the arguments of
`QDBusMessage::createSignal` and the two values appended to the message. -/
structure UnitySignal where
  path : String
  interface : String
  name : String
  launcherUrl : String
  properties : QVariantMap
deriving DecidableEq, Repr

/-- What the functions of the file ask of the outside: Qt, the environment, D-Bus,
the tray library and the rest of the application.  Each field is named after the
call it answers. -/
structure Desktop where
  /-- The call `GetIconName()`. -/
  iconName : String
  /-- The call `QIcon::hasThemeIcon(name)`. -/
  hasThemeIcon : String → Bool
  /-- The call `QIcon::themeName()`. -/
  themeName : String
  /-- The call `QIcon::fromTheme(name)`. -/
  fromTheme : String → QIcon
  /-- Whether `TDESKTOP_FORCE_PANEL_ICON` is set. -/
  forcePanelIcon : Bool
  /-- Whether `TDESKTOP_DISABLE_TRAY_COUNTER` is set. -/
  disableTrayCounter : Bool
  /-- The painting part of `TrayIconGen` (the loop over the icon sizes): from the
  cache, the theme name, the icon name, the counter and the muted flag, the new
  background images and the painted icon. -/
  paintTrayIcon : TrayIconCache → String → String → Int → Bool → List (Int × QImage) × QIcon
  /-- The call `QSystemTrayIcon::isSystemTrayAvailable()`. -/
  isSystemTrayAvailable : Bool
  /-- The call `UseUnityCounter()`: whether the Unity D-Bus interface is valid. -/
  useUnityCounter : Bool
  /-- The call `Core::App().unreadBadge()`. -/
  unreadBadge : Int
  /-- The call `Core::App().unreadBadgeMuted()`. -/
  unreadBadgeMuted : Bool
  /-- The call `GetLauncherFilename()`. -/
  launcherFilename : String
  /-- The call `QString::toLatin1()`: the bytes of a string. -/
  toLatin1 : String → List Nat
  /-- Whether the type `char` is signed on the platform. -/
  charIsSigned : Bool
  /-- The call `InSnap()`. -/
  inSnap : Bool
  /-- The call `IsIndicatorApplication()`. -/
  isIndicatorApplication : Bool
  /-- The call `TrayIconFile(icon, this)`: the name of the temporary file the icon was
  saved to, if there is one. -/
  trayIconFile : QIcon → Option String
  /-- A new `StatusNotifierItem` with its title set. -/
  sniCreate : StatusNotifierItem
  /-- The call `StatusNotifierItem::iconName()`. -/
  sniIconName : StatusNotifierItem → String
  /-- The call `StatusNotifierItem::iconPixmap().isEmpty()`. -/
  sniIconPixmapIsEmpty : StatusNotifierItem → Bool
  /-- The call `StatusNotifierItem::setIconByName(name)`. -/
  sniSetIconByName : StatusNotifierItem → String → StatusNotifierItem
  /-- The call `StatusNotifierItem::setToolTipIconByName(name)`. -/
  sniSetToolTipIconByName : StatusNotifierItem → String → StatusNotifierItem
  /-- The call `StatusNotifierItem::setIconByPixmap(icon)`. -/
  sniSetIconByPixmap : StatusNotifierItem → QIcon → StatusNotifierItem
  /-- The call `StatusNotifierItem::setToolTipIconByPixmap(icon)`. -/
  sniSetToolTipIconByPixmap : StatusNotifierItem → QIcon → StatusNotifierItem
  /-- The calls of `attachToSNITrayIcon()` on the item. -/
  sniAttach : StatusNotifierItem → StatusNotifierItem

/-- The state the functions of the file read and write: the work mode
(`Global::WorkMode()`), the flag kept by `Platform::SetTrayIconSupported`, the
file-level variables, the members `trayIcon`, `_sniTrayIcon`, `_trayIconFile` of the
window, and the signals sent to the Unity launcher so far. -/
structure MainWindow where
  workMode : DBIWorkMode := .dbiwmWindowAndTray
  trayIconSupported : Bool := false
  SNIAvailable : Bool := false
  AppMenuSupported : Bool := false
  tray : TrayIconCache := {}
  trayIcon : Option QSystemTrayIcon := none
  _sniTrayIcon : Option StatusNotifierItem := none
  _trayIconFile : Option String := none
  sentToUnity : List UnitySignal := []
deriving DecidableEq, Repr

/-- The constant `kPanelTrayIconName`. -/
def kPanelTrayIconName : String := "telegram-panel"

/-- The constant `kMutePanelTrayIconName`. -/
def kMutePanelTrayIconName : String := "telegram-mute-panel"

/-- The constant `kAttentionPanelTrayIconName`. -/
def kAttentionPanelTrayIconName : String := "telegram-attention-panel"

/-- The function `GetPanelIconName(counter, muted)`. -/
def GetPanelIconName (counter : Int) (muted : Bool) : String :=
  if counter > 0 then
    (if muted then kMutePanelTrayIconName else kAttentionPanelTrayIconName)
  else kPanelTrayIconName

/-- The function `GetTrayIconName(counter, muted)`. -/
def GetTrayIconName (env : Desktop) (counter : Int) (muted : Bool) : String :=
  let iconName := env.iconName
  let panelIconName := GetPanelIconName counter muted
  if env.hasThemeIcon panelIconName || env.forcePanelIcon then panelIconName
  else if env.hasThemeIcon iconName then iconName
  else ""

/-- The function `GetCounterSlice(counter)`; `%` of C++ truncates towards zero. -/
def GetCounterSlice (counter : Int) : Int :=
  if counter ≥ 1000 then 1000 + Int.tmod counter 100 else counter

/-- The function `IsIconRegenerationNeeded(counter, muted, iconThemeName)`. -/
def IsIconRegenerationNeeded (env : Desktop) (cache : TrayIconCache) (counter : Int)
    (muted : Bool) (iconThemeName : String) : Bool :=
  let iconName := GetTrayIconName env counter muted
  let counterSlice := GetCounterSlice counter
  cache.TrayIcon.isNull
    || iconThemeName != cache.TrayIconThemeName
    || iconName != cache.TrayIconName
    || muted != cache.TrayIconMuted
    || counterSlice != cache.TrayIconCount

/-- The function `UpdateIconRegenerationNeeded(icon, counter, muted, iconThemeName)`. -/
def UpdateIconRegenerationNeeded (env : Desktop) (cache : TrayIconCache) (icon : QIcon)
    (counter : Int) (muted : Bool) (iconThemeName : String) : TrayIconCache :=
  let iconName := GetTrayIconName env counter muted
  let counterSlice := GetCounterSlice counter
  { cache with
    TrayIcon := icon
    TrayIconMuted := muted
    TrayIconCount := counterSlice
    TrayIconThemeName := iconThemeName
    TrayIconName := iconName }

/-- The function `TrayIconGen(counter, muted)`: the icon it returns and the cache it
leaves.  The loop that paints the icon is `Desktop.paintTrayIcon`. -/
def TrayIconGen (env : Desktop) (cache : TrayIconCache) (counter : Int) (muted : Bool) :
    QIcon × TrayIconCache :=
  let iconThemeName := env.themeName
  if !IsIconRegenerationNeeded env cache counter muted iconThemeName then
    (cache.TrayIcon, cache)
  else
    let iconName := GetTrayIconName env counter muted
    if env.disableTrayCounter && !iconName.isEmpty then
      let result := env.fromTheme iconName
      (result, UpdateIconRegenerationNeeded env cache result counter muted iconThemeName)
    else
      let painted := env.paintTrayIcon cache iconThemeName iconName counter muted
      (painted.2,
        UpdateIconRegenerationNeeded env { cache with TrayIconImageBack := painted.1 }
          painted.2 counter muted iconThemeName)

/-- The value of `chars[i]`, a `char`, for a byte: with a signed `char` a byte of 128
or more is negative. -/
def charValue (charIsSigned : Bool) (byte : Nat) : Int :=
  if charIsSigned && decide (128 ≤ byte) then (byte : Int) - 256 else (byte : Int)

/-- One round of the loop of `djbStringHash`: `hash = (hash << 5) + hash + chars[i]`
on a `quint32`. -/
def djbStep (charIsSigned : Bool) (hash : Nat) (byte : Nat) : Nat :=
  ((((hash * 32 % 2 ^ 32 + hash) % 2 ^ 32 : Nat) : Int) + charValue charIsSigned byte)
    % (2 ^ 32 : Int) |>.toNat

/-- The function `djbStringHash(string)`. -/
def djbStringHash (env : Desktop) (string : String) : Nat :=
  (env.toLatin1 string).foldl (djbStep env.charIsSigned) 5381

/-- The 32-bit djb2 hash of a byte sequence as the claim words it: `h_0 = 5381` and
`h_i = (33 * h_(i-1) + b_i) mod 2^32`. -/
def djb2 (bytes : List Nat) : Nat :=
  bytes.foldl (fun h b => (33 * h + b) % 2 ^ 32) 5381

/-- The function `ForceDisabled(action, disabled)`. -/
def ForceDisabled (action : QAction) (disabled : Bool) : QAction :=
  if action.isEnabled then
    (if disabled then action.setDisabled true else action)
  else if !disabled then action.setDisabled false
  else action

/-- The member `setSNITrayIcon(counter, muted)`.  It is called with a
`_sniTrayIcon` in place; without one the state is returned as it is. -/
def setSNITrayIcon (env : Desktop) (w : MainWindow) (counter : Int) (muted : Bool) :
    MainWindow :=
  match w._sniTrayIcon with
  | none => w
  | some item =>
    let iconName := GetTrayIconName env counter muted
    if env.disableTrayCounter && !iconName.isEmpty && (!env.inSnap || env.forcePanelIcon) then
      if env.sniIconName item = iconName then w
      else
        { w with
          _sniTrayIcon :=
            some (env.sniSetToolTipIconByName (env.sniSetIconByName item iconName) iconName) }
    else if env.isIndicatorApplication then
      if !IsIconRegenerationNeeded env w.tray counter muted env.themeName
          && w._trayIconFile.isSome
          && decide (some (env.sniIconName item) = w._trayIconFile) then w
      else
        let generated := TrayIconGen env w.tray counter muted
        let file := env.trayIconFile generated.1
        { w with
          tray := generated.2
          _trayIconFile := file
          _sniTrayIcon :=
            match file with
            | some fileName => some (env.sniSetIconByName item fileName)
            | none => some item }
    else
      if !IsIconRegenerationNeeded env w.tray counter muted env.themeName
          && !env.sniIconPixmapIsEmpty item
          && (env.sniIconName item).isEmpty then w
      else
        let generated := TrayIconGen env w.tray counter muted
        { w with
          tray := generated.2
          _sniTrayIcon :=
            some (env.sniSetToolTipIconByPixmap (env.sniSetIconByPixmap item generated.1)
              generated.1) }

/-- The properties `updateIconCounters` puts in `dbusUnityProperties` for a counter. -/
def dbusUnityProperties (counter : Int) : QVariantMap :=
  if counter > 0 then
    (QVariantMap.insert [] "count" (.int64 (if counter > 9999 then 9999 else counter))).insert
      "count-visible" (.bool true)
  else
    QVariantMap.insert [] "count-visible" (.bool false)

/-- The signal `updateIconCounters` builds for the Unity launcher entry: the path ends
in the decimal `djbStringHash` of the launcher url, and the message carries the
launcher url and the properties. -/
def unityLauncherSignal (env : Desktop) (counter : Int) : UnitySignal :=
  let launcherUrl := "application://" ++ env.launcherFilename
  { path := "/com/canonical/unity/launcherentry/" ++ toString (djbStringHash env launcherUrl)
    interface := "com.canonical.Unity.LauncherEntry"
    name := "Update"
    launcherUrl := launcherUrl
    properties := dbusUnityProperties counter }

/-- The member `updateIconCounters()`.  The call `updateWindowIcon()` leaves the state
kept here alone. -/
def updateIconCounters (env : Desktop) (w : MainWindow) : MainWindow :=
  let counter := env.unreadBadge
  let muted := env.unreadBadgeMuted
  let w1 :=
    if env.useUnityCounter then
      { w with sentToUnity := w.sentToUnity ++ [unityLauncherSignal env counter] }
    else w
  let w2 := if w1._sniTrayIcon.isSome then setSNITrayIcon env w1 counter muted else w1
  match w2.trayIcon with
  | some icon =>
    if IsIconRegenerationNeeded env w2.tray counter muted env.themeName then
      let generated := TrayIconGen env w2.tray counter muted
      { w2 with trayIcon := some { icon with icon := generated.1 }, tray := generated.2 }
    else w2
  | none => w2

/-- The member `psSetupTrayIcon()`.  The calls `attachToTrayIcon` and the logging leave
the state kept here alone. -/
def psSetupTrayIcon (env : Desktop) (w : MainWindow) : MainWindow :=
  let counter := env.unreadBadge
  let muted := env.unreadBadgeMuted
  if w.SNIAvailable then
    let w1 :=
      match w._sniTrayIcon with
      | none =>
        let created := setSNITrayIcon env { w with _sniTrayIcon := some env.sniCreate } counter muted
        { created with _sniTrayIcon := created._sniTrayIcon.map env.sniAttach }
      | some _ => w
    updateIconCounters env w1
  else
    let w1 :=
      match w.trayIcon with
      | none =>
        let generated := TrayIconGen env w.tray counter muted
        { w with trayIcon := some { icon := generated.1 }, tray := generated.2 }
      | some _ => w
    let w2 := updateIconCounters env w1
    { w2 with trayIcon := w2.trayIcon.map (fun icon => { icon with visible := true }) }

/-- The member `handleSNIOwnerChanged(service, oldOwner, newOwner)` after its two
early returns: the tray icon is dropped and the tray is set up again. -/
def switchTrayIcon (env : Desktop) (w : MainWindow) (newOwner : String) : MainWindow :=
  let w1 := { w with trayIcon := none }
  let w2 := { w1 with SNIAvailable := !newOwner.isEmpty }
  let trayAvailable := w2.SNIAvailable || env.isSystemTrayAvailable
  let w3 := { w2 with trayIconSupported := trayAvailable }
  if trayAvailable then psSetupTrayIcon env w3 else w3

/-- The member `handleSNIOwnerChanged(service, oldOwner, newOwner)`. -/
def handleSNIOwnerChanged (env : Desktop) (w : MainWindow) (_service oldOwner newOwner : String) :
    MainWindow :=
  if w.workMode = .dbiwmWindowOnly then w
  else if oldOwner.isEmpty && !newOwner.isEmpty then switchTrayIcon env w newOwner
  else if !oldOwner.isEmpty && newOwner.isEmpty then switchTrayIcon env w newOwner
  else w

/-- A desktop for the witnesses: no theme icon, the Qt system tray available, the
Unity launcher present, an unread badge of 12000, and a tray library that keeps
nothing. -/
def desktopQtTray : Desktop :=
  { iconName := "telegram"
    hasThemeIcon := fun _ => false
    themeName := "hicolor"
    fromTheme := fun _ => .null
    forcePanelIcon := false
    disableTrayCounter := false
    paintTrayIcon := fun _ _ _ counter _ => ([], .image counter.toNat)
    isSystemTrayAvailable := true
    useUnityCounter := true
    unreadBadge := 12000
    unreadBadgeMuted := false
    launcherFilename := "telegramdesktop.desktop"
    toLatin1 := fun s => s.toList.map (fun c => c.toNat)
    charIsSigned := true
    inSnap := false
    isIndicatorApplication := false
    trayIconFile := fun _ => none
    sniCreate := 0
    sniIconName := fun _ => ""
    sniIconPixmapIsEmpty := fun _ => true
    sniSetIconByName := fun item _ => item
    sniSetToolTipIconByName := fun item _ => item
    sniSetIconByPixmap := fun item _ => item
    sniSetToolTipIconByPixmap := fun item _ => item
    sniAttach := fun item => item }

/-- A window for the witnesses: the Qt tray icon is in place and shown with icon 77,
and the cache holds icon 7 for the unread badge of `desktopQtTray` (counter slice 1000,
not muted, theme "hicolor", no icon name), so that no regeneration is needed. -/
def windowQtTray : MainWindow :=
  { trayIconSupported := true
    tray :=
      { TrayIconMuted := false
        TrayIconCount := 1000
        TrayIcon := .image 7
        TrayIconThemeName := "hicolor"
        TrayIconName := "" }
    trayIcon := some { icon := .image 77, visible := true } }

end Platform

namespace Data

/-! ## Lookup in a flat map and in the participant list -/

theorem FlatMap.find_erase {β : Type} (m : FlatMap β) (k j : Nat) :
    FlatMap.find (FlatMap.erase m k) j = if j = k then none else FlatMap.find m j := by
  induction m with
  | nil => simp [FlatMap.erase, FlatMap.find]
  | cons e rest ih =>
    obtain ⟨k0, v0⟩ := e
    simp only [FlatMap.erase] at ih ⊢
    rw [List.filter_cons]
    by_cases h0 : k0 = k
    · have hd : decide ((k0, v0).1 ≠ k) = false := by simp [h0]
      rw [hd, if_neg (by simp), ih]
      by_cases hj : j = k
      · simp [hj]
      · have hne : ¬ k0 = j := fun h => hj (h.symm.trans h0)
        simp [hj, FlatMap.find, hne]
    · have hd : decide ((k0, v0).1 ≠ k) = true := by simp [h0]
      rw [hd, if_pos rfl]
      by_cases h1 : k0 = j
      · have hj : ¬ j = k := fun h => h0 (h1.trans h)
        simp [FlatMap.find, h1, hj]
      · simp only [FlatMap.find, if_neg h1]
        exact ih

theorem FlatMap.find_assign {β : Type} (m : FlatMap β) (k j : Nat) (v : β) :
    FlatMap.find (FlatMap.assign m k v) j = if j = k then some v else FlatMap.find m j := by
  induction m with
  | nil =>
    by_cases hj : j = k
    · simp [FlatMap.assign, FlatMap.find, hj]
    · have hne : ¬ k = j := fun h => hj h.symm
      simp [FlatMap.assign, FlatMap.find, hj, hne]
  | cons e rest ih =>
    obtain ⟨k0, v0⟩ := e
    simp only [FlatMap.assign]
    by_cases h1 : k < k0
    · rw [if_pos h1]
      by_cases hj : j = k
      · simp [FlatMap.find, hj]
      · have hne : ¬ k = j := fun h => hj h.symm
        simp [FlatMap.find, hj, hne]
    · rw [if_neg h1]
      by_cases h2 : k = k0
      · rw [if_pos h2]
        by_cases hj : j = k
        · simp [FlatMap.find, hj]
        · have hne : ¬ k = j := fun h => hj h.symm
          have h3 : ¬ k0 = j := fun h => hne (h2.trans h)
          simp [FlatMap.find, hj, hne, h3]
      · rw [if_neg h2]
        by_cases h3 : k0 = j
        · have hj : ¬ j = k := fun h => h2 (h.symm.trans h3.symm)
          simp [FlatMap.find, h3, hj]
        · simp only [FlatMap.find, if_neg h3]
          exact ih

theorem find_assignSsrc (m : FlatMap PeerKey) (s j : Nat) (peer : PeerKey) :
    FlatMap.find (assignSsrc m s peer) j
      = if j = s ∧ s ≠ 0 then some peer else FlatMap.find m j := by
  unfold assignSsrc
  by_cases hs : s = 0
  · simp [hs]
  · simp [hs, FlatMap.find_assign]

theorem findParticipant_some {l : List Participant} {peer : PeerKey} {q : Participant}
    (h : findParticipant l peer = some q) : q ∈ l ∧ q.peer = peer := by
  unfold findParticipant at h
  refine ⟨List.mem_of_find?_eq_some h, ?_⟩
  have := List.find?_some h
  simpa using this

theorem findParticipant_none {l : List Participant} {peer : PeerKey}
    (h : findParticipant l peer = none) : ∀ q ∈ l, q.peer ≠ peer := by
  unfold findParticipant at h
  intro q hq
  have := List.find?_eq_none.1 h q hq
  simpa using this

theorem findParticipant_of_mem {l : List Participant} {q : Participant}
    (hu : (l.map (fun x => x.peer)).Nodup) (hq : q ∈ l) :
    findParticipant l q.peer = some q := by
  induction l with
  | nil => cases hq
  | cons a rest ih =>
    rw [List.map_cons, List.nodup_cons] at hu
    by_cases ha : a.peer = q.peer
    · rcases List.mem_cons.1 hq with h | h
      · subst h; simp [findParticipant]
      · exact absurd (ha ▸ List.mem_map_of_mem (fun x => x.peer) h) hu.1
    · rcases List.mem_cons.1 hq with h | h
      · exact absurd (by rw [h]) ha
      · have := ih hu.2 h
        unfold findParticipant at this ⊢
        rw [List.find?_cons_of_neg _ (by simpa using ha)]
        exact this

/-! ## `upsert` and `remove`: membership, unique peers, index consistency -/

theorem mem_upsert {ord : OrderPolicy} (hord : ord.Valid) (g : GroupCall) (p q : Participant) :
    q ∈ (upsert ord g p)._participants ↔ q = p ∨ (q ∈ g._participants ∧ q.peer ≠ p.peer) := by
  unfold upsert
  cases hf : findParticipant g._participants p.peer with
  | none =>
    have hnone := findParticipant_none hf
    simp only [(hord.1 _ _ _).mem_iff, List.mem_append, List.mem_singleton]
    constructor
    · rintro (h | h)
      · exact Or.inr ⟨h, hnone q h⟩
      · exact Or.inl h
    · rintro (h | h)
      · exact Or.inr h
      · exact Or.inl h.1
  | some old =>
    have hold := findParticipant_some hf
    simp only [(hord.1 _ _ _).mem_iff, List.mem_map]
    constructor
    · rintro ⟨x, hx, hxq⟩
      by_cases hp : x.peer = p.peer
      · rw [if_pos hp] at hxq
        exact Or.inl hxq.symm
      · rw [if_neg hp] at hxq
        subst hxq
        exact Or.inr ⟨hx, hp⟩
    · rintro (h | h)
      · exact ⟨old, hold.1, by rw [if_pos hold.2]; exact h.symm⟩
      · exact ⟨q, h.1, by rw [if_neg h.2]⟩

theorem peersUnique_upsert {ord : OrderPolicy} (hord : ord.Valid) (g : GroupCall)
    (p : Participant) (hu : PeersUnique g) : PeersUnique (upsert ord g p) := by
  unfold PeersUnique at hu ⊢
  unfold upsert
  cases hf : findParticipant g._participants p.peer with
  | none =>
    have hnone := findParticipant_none hf
    simp only
    rw [((hord.1 _ _ _).map _).nodup_iff, List.map_append, List.map_cons, List.map_nil]
    refine List.Nodup.append hu (List.nodup_singleton _) ?_
    intro x hx hx2
    rw [List.mem_singleton] at hx2
    obtain ⟨q, hq, hqx⟩ := List.mem_map.1 hx
    exact hnone q hq (hqx.trans hx2)
  | some old =>
    simp only
    rw [((hord.1 _ _ _).map _).nodup_iff, List.map_map]
    have : ((fun x : Participant => x.peer) ∘ fun q => if q.peer = p.peer then p else q)
        = fun x : Participant => x.peer := by
      funext q
      by_cases hp : q.peer = p.peer
      · simp [hp]
      · simp [hp]
    rw [this]
    exact hu

theorem mem_remove {ord : OrderPolicy} (hord : ord.Valid) (g : GroupCall) (peer : PeerKey)
    (q : Participant) :
    q ∈ (remove ord g peer)._participants ↔ q ∈ g._participants ∧ q.peer ≠ peer := by
  unfold remove
  cases hf : findParticipant g._participants peer with
  | none =>
    have hnone := findParticipant_none hf
    exact ⟨fun h => ⟨h, hnone q h⟩, fun h => h.1⟩
  | some old =>
    simp only [(hord.1 _ _ _).mem_iff, List.mem_filter, decide_eq_true_eq]

theorem peersUnique_remove {ord : OrderPolicy} (hord : ord.Valid) (g : GroupCall)
    (peer : PeerKey) (hu : PeersUnique g) : PeersUnique (remove ord g peer) := by
  unfold PeersUnique at hu ⊢
  unfold remove
  cases hf : findParticipant g._participants peer with
  | none => exact hu
  | some old =>
    simp only
    rw [((hord.1 _ _ _).map _).nodup_iff]
    exact hu.sublist ((List.filter_sublist _).map _)

theorem unique_of_peer {g : GroupCall} (hu : PeersUnique g) {a b : Participant}
    (ha : a ∈ g._participants) (hb : b ∈ g._participants) (h : a.peer = b.peer) : a = b := by
  have h1 := findParticipant_of_mem hu ha
  have h2 := findParticipant_of_mem hu hb
  rw [h] at h1
  exact Option.some.inj (h1.symm.trans h2)

theorem indexConsistent_upsert {ord : OrderPolicy} (hord : ord.Valid) (g : GroupCall)
    (p : Participant) (hu : PeersUnique g) (hi : IndexConsistent g) :
    IndexConsistent (upsert ord g p) := by
  intro s peer hs
  have hmem := mem_upsert hord g p
  unfold GroupCall.participantPeerBySsrc at hs
  unfold upsert at hs
  cases hf : findParticipant g._participants p.peer with
  | none =>
    rw [hf] at hs
    simp only [find_assignSsrc] at hs
    by_cases hc : s = p.ssrc ∧ p.ssrc ≠ 0
    · rw [if_pos hc] at hs
      exact ⟨p, (hmem p).2 (Or.inl rfl), Option.some.inj hs, hc.1.symm⟩
    · rw [if_neg hc] at hs
      obtain ⟨q, hq, hqp, hqs⟩ := hi s peer hs
      exact ⟨q, (hmem q).2 (Or.inr ⟨hq, findParticipant_none hf q hq⟩), hqp, hqs⟩
  | some old =>
    have hold := findParticipant_some hf
    rw [hf] at hs
    simp only at hs
    by_cases hsame : old.ssrc = p.ssrc
    · rw [if_pos hsame] at hs
      obtain ⟨q, hq, hqp, hqs⟩ := hi s peer hs
      by_cases hqq : q.peer = p.peer
      · have : q = old := unique_of_peer hu hq hold.1 (hqq.trans hold.2.symm)
        subst this
        exact ⟨p, (hmem p).2 (Or.inl rfl), hqq.symm.trans hqp, hsame.symm.trans hqs⟩
      · exact ⟨q, (hmem q).2 (Or.inr ⟨hq, hqq⟩), hqp, hqs⟩
    · rw [if_neg hsame, find_assignSsrc] at hs
      by_cases hc : s = p.ssrc ∧ p.ssrc ≠ 0
      · rw [if_pos hc] at hs
        exact ⟨p, (hmem p).2 (Or.inl rfl), Option.some.inj hs, hc.1.symm⟩
      · rw [if_neg hc, FlatMap.find_erase] at hs
        by_cases hso : s = old.ssrc
        · rw [if_pos hso] at hs
          cases hs
        · rw [if_neg hso] at hs
          obtain ⟨q, hq, hqp, hqs⟩ := hi s peer hs
          by_cases hqq : q.peer = p.peer
          · have : q = old := unique_of_peer hu hq hold.1 (hqq.trans hold.2.symm)
            subst this
            exact absurd hqs.symm hso
          · exact ⟨q, (hmem q).2 (Or.inr ⟨hq, hqq⟩), hqp, hqs⟩

theorem indexConsistent_remove {ord : OrderPolicy} (hord : ord.Valid) (g : GroupCall)
    (peer : PeerKey) (hu : PeersUnique g) (hi : IndexConsistent g) :
    IndexConsistent (remove ord g peer) := by
  intro s pr hs
  have hmem := mem_remove hord g peer
  unfold GroupCall.participantPeerBySsrc at hs
  unfold remove at hs
  cases hf : findParticipant g._participants peer with
  | none =>
    rw [hf] at hs
    obtain ⟨q, hq, hqp, hqs⟩ := hi s pr hs
    exact ⟨q, (hmem q).2 ⟨hq, findParticipant_none hf q hq⟩, hqp, hqs⟩
  | some old =>
    have hold := findParticipant_some hf
    rw [hf] at hs
    simp only [FlatMap.find_erase] at hs
    by_cases hso : s = old.ssrc
    · rw [if_pos hso] at hs
      cases hs
    · rw [if_neg hso] at hs
      obtain ⟨q, hq, hqp, hqs⟩ := hi s pr hs
      by_cases hqq : q.peer = peer
      · have : q = old := unique_of_peer hu hq hold.1 (hqq.trans hold.2.symm)
        subst this
        exact absurd hqs.symm hso
      · exact ⟨q, (hmem q).2 ⟨hq, hqq⟩, hqp, hqs⟩

/-! ## The registry invariant along every roster operation -/

theorem keepOrder_valid : keepOrder.Valid :=
  ⟨fun _ _ l => List.Perm.refl l, fun _ _ => rfl⟩

theorem rosterInv_congr {g g1 : GroupCall} (hp : g1._participants = g._participants)
    (hx : g1._participantPeerBySsrc = g._participantPeerBySsrc) (h : RosterInv g) :
    RosterInv g1 := by
  unfold RosterInv PeersUnique IndexConsistent GroupCall.participantPeerBySsrc at *
  rw [hp, hx]
  exact h

theorem rosterInv_upsert {ord : OrderPolicy} (hord : ord.Valid) (g : GroupCall)
    (p : Participant) (h : RosterInv g) : RosterInv (upsert ord g p) :=
  ⟨peersUnique_upsert hord g p h.1, indexConsistent_upsert hord g p h.1 h.2⟩

theorem rosterInv_remove {ord : OrderPolicy} (hord : ord.Valid) (g : GroupCall)
    (peer : PeerKey) (h : RosterInv g) : RosterInv (remove ord g peer) :=
  ⟨peersUnique_remove hord g peer h.1, indexConsistent_remove hord g peer h.1 h.2⟩

theorem rosterInv_mergeOne {ord : OrderPolicy} (hord : ord.Valid) (version : Int)
    (g : GroupCall) (p : Participant) (h : RosterInv g) :
    RosterInv (mergeOne ord version g p) := by
  unfold mergeOne
  cases findParticipant g._participants p.peer with
  | none => exact rosterInv_upsert hord g p h
  | some old =>
    simp only
    split
    · exact rosterInv_upsert hord g p h
    · exact h

theorem rosterInv_resolveOne {ord : OrderPolicy} (hord : ord.Valid)
    (g : GroupCall) (p : Participant) (h : RosterInv g) :
    RosterInv (resolveOne ord g p) := by
  unfold resolveOne
  split
  · exact rosterInv_congr rfl rfl (rosterInv_upsert hord g p h)
  · exact h

theorem rosterInv_foldl {α : Type} (f : GroupCall → α → GroupCall)
    (hf : ∀ g a, RosterInv g → RosterInv (f g a)) (l : List α) (g : GroupCall)
    (h : RosterInv g) : RosterInv (l.foldl f g) := by
  induction l generalizing g with
  | nil => exact h
  | cons a rest ih => exact ih (f g a) (hf g a h)

theorem rosterInv_applyParticipantsSlice {ord : OrderPolicy} (hord : ord.Valid)
    (g : GroupCall) (slice : ParticipantsSlice) (sliceSource : ApplySliceSource)
    (h : RosterInv g) : RosterInv (applyParticipantsSlice ord g slice sliceSource) := by
  cases sliceSource with
  | SliceLoaded =>
    exact rosterInv_congr rfl rfl
      (rosterInv_foldl _ (rosterInv_mergeOne hord slice.version) slice.participants g h)
  | UnknownLoaded =>
    exact rosterInv_foldl _ (rosterInv_resolveOne hord) slice.participants g h
  | UpdateReceived =>
    exact rosterInv_foldl _ (rosterInv_mergeOne hord slice.version) slice.participants g h

theorem rosterInv_applyEntry {ord : OrderPolicy} (hord : ord.Valid) (version : Int)
    (g : GroupCall) (e : DiffEntry) (h : RosterInv g) :
    RosterInv (applyEntry ord version g e) := by
  cases e with
  | joinedOrUpdated p => exact rosterInv_applyParticipantsSlice hord g _ _ h
  | left peer => exact rosterInv_remove hord g peer h
  | versionBump => exact h

theorem rosterInv_applyUpdate {ord : OrderPolicy} (hord : ord.Valid)
    (g : GroupCall) (d : ParticipantsDiff) (h : RosterInv g) :
    RosterInv (applyUpdate ord g d) := by
  unfold applyUpdate
  split
  · exact rosterInv_congr rfl rfl
      (rosterInv_foldl _ (rosterInv_applyEntry hord d.version) d.entries g h)
  · split
    · exact h
    · unfold reload
      split
      · exact rosterInv_congr rfl rfl h
      · exact h

theorem rosterInv_applyOps {ord : OrderPolicy} (hord : ord.Valid)
    (g : GroupCall) (ops : List RosterOp) (h : RosterInv g) :
    RosterInv (applyOps ord g ops) := by
  refine rosterInv_foldl _ ?_ ops g h
  intro g1 op h1
  cases op with
  | slice s sliceSource => exact rosterInv_applyParticipantsSlice hord g1 s sliceSource h1
  | update d => exact rosterInv_applyUpdate hord g1 d h1

theorem rosterInv_create (peer : PeerKey) (id accessHash : Nat) :
    RosterInv (GroupCall.create peer id accessHash) := by
  refine ⟨List.nodup_nil, ?_⟩
  intro s p hs
  simp [GroupCall.participantPeerBySsrc, GroupCall.create, FlatMap.find] at hs

/-- C1. Index/registry consistency: after any sequence of participants slices (of any
of the three sources) and diff batches applied to a newly created call, every entry
`ssrc -> peer` of the reverse index names a participant of the list that has that
peer and whose `ssrc` field is the key.  It holds for every re-sorting step that only
rearranges the list. -/
theorem index_registry_consistent (ord : OrderPolicy) (hord : ord.Valid)
    (peer : PeerKey) (id accessHash : Nat) (ops : List RosterOp) (ssrc : Nat) (p : PeerKey) :
    (applyOps ord (GroupCall.create peer id accessHash) ops).participantPeerBySsrc ssrc = some p →
      ∃ q ∈ (applyOps ord (GroupCall.create peer id accessHash) ops).participants,
        q.peer = p ∧ q.ssrc = ssrc :=
  (rosterInv_applyOps hord _ ops (rosterInv_create peer id accessHash)).2 ssrc p

/-! ## The index after `upsert` and `remove`; rejected diffs; the join-mute setter -/

theorem lookup_upsert (ord : OrderPolicy) (g : GroupCall) (p : Participant) (j : Nat) :
    (upsert ord g p).participantPeerBySsrc j =
      match findParticipant g._participants p.peer with
      | none => if j = p.ssrc ∧ p.ssrc ≠ 0 then some p.peer else g.participantPeerBySsrc j
      | some old =>
        if old.ssrc = p.ssrc then g.participantPeerBySsrc j
        else if j = p.ssrc ∧ p.ssrc ≠ 0 then some p.peer
        else if j = old.ssrc then none else g.participantPeerBySsrc j := by
  unfold GroupCall.participantPeerBySsrc upsert
  cases findParticipant g._participants p.peer with
  | none => simp only [find_assignSsrc]
  | some old =>
    simp only
    by_cases hsame : old.ssrc = p.ssrc
    · rw [if_pos hsame, if_pos hsame]
    · rw [if_neg hsame, if_neg hsame, find_assignSsrc, FlatMap.find_erase]

theorem lookup_remove (ord : OrderPolicy) (g : GroupCall) (peer : PeerKey) (j : Nat) :
    (remove ord g peer).participantPeerBySsrc j =
      match findParticipant g._participants peer with
      | none => g.participantPeerBySsrc j
      | some old => if j = old.ssrc then none else g.participantPeerBySsrc j := by
  unfold GroupCall.participantPeerBySsrc remove
  cases findParticipant g._participants peer with
  | none => rfl
  | some old => simp only [FlatMap.find_erase]

theorem version_upsert (ord : OrderPolicy) (g : GroupCall) (p : Participant) :
    (upsert ord g p)._version = g._version := by
  unfold upsert
  cases findParticipant g._participants p.peer <;> rfl

theorem version_remove (ord : OrderPolicy) (g : GroupCall) (peer : PeerKey) :
    (remove ord g peer)._version = g._version := by
  unfold remove
  cases findParticipant g._participants peer <;> rfl

theorem mergeOne_of_le (ord : OrderPolicy) (version : Int) (g : GroupCall) (p : Participant)
    (h : g._version ≤ version) : mergeOne ord version g p = upsert ord g p := by
  unfold mergeOne
  cases findParticipant g._participants p.peer with
  | none => rfl
  | some old => simp only [if_pos h]

/-- C2. Atomic rejection of a diff: when the version of a participants diff is not the
current version plus one (a duplicate at the current version included), applying it
leaves the version, the participant list and the ssrc index exactly as they were and
fires no participant-changed event. -/
theorem rejected_diff_changes_nothing (ord : OrderPolicy) (g : GroupCall)
    (d : ParticipantsDiff) (h : d.version ≠ g._version + 1) :
    (applyUpdate ord g d)._version = g._version
      ∧ (applyUpdate ord g d).participants = g.participants
      ∧ (applyUpdate ord g d)._participantPeerBySsrc = g._participantPeerBySsrc
      ∧ (applyUpdate ord g d)._participantUpdates = g._participantUpdates := by
  unfold applyUpdate
  rw [if_neg h]
  by_cases hle : d.version ≤ g._version
  · rw [if_pos hle]
    exact ⟨rfl, rfl, rfl, rfl⟩
  · rw [if_neg hle]
    unfold reload
    by_cases hr : g._reloadRequestId = 0
    · rw [if_pos hr]
      exact ⟨rfl, rfl, rfl, rfl⟩
    · rw [if_neg hr]
      exact ⟨rfl, rfl, rfl, rfl⟩

/-- Witness of C2: the scenario of the specification, a diff at version 7 that
arrives while the current version is 7. -/
theorem rejected_diff_changes_nothing_witness :
    (7 : Int) ≠ (callAB 7)._version + 1
      ∧ ((applyUpdate keepOrder (callAB 7)
            { version := 7, entries := [.left 2, .joinedOrUpdated (partC 12)] })._version
          = (callAB 7)._version
        ∧ (applyUpdate keepOrder (callAB 7)
            { version := 7, entries := [.left 2, .joinedOrUpdated (partC 12)] }).participants
          = (callAB 7).participants
        ∧ (applyUpdate keepOrder (callAB 7)
            { version := 7,
              entries := [.left 2, .joinedOrUpdated (partC 12)] })._participantPeerBySsrc
          = (callAB 7)._participantPeerBySsrc
        ∧ (applyUpdate keepOrder (callAB 7)
            { version := 7,
              entries := [.left 2, .joinedOrUpdated (partC 12)] })._participantUpdates
          = (callAB 7)._participantUpdates) :=
  ⟨by decide,
    rejected_diff_changes_nothing keepOrder (callAB 7)
      { version := 7, entries := [.left 2, .joinedOrUpdated (partC 12)] } (by decide)⟩

/-- C9. The local join-mute setter is effective only when the policy is changeable:
after `setJoinMutedLocally(m)`, `joinMuted()` is `m` if `canChangeJoinMuted()` was true
and is its previous value otherwise. -/
theorem setJoinMutedLocally_effective_iff_changeable (g : GroupCall) (m : Bool) :
    (setJoinMutedLocally g m).joinMuted = if g.canChangeJoinMuted then m else g.joinMuted := by
  unfold setJoinMutedLocally GroupCall.joinMuted GroupCall.canChangeJoinMuted
  cases hc : g._canChangeJoinMuted <;> simp

/-! ## An accepted diff -/

theorem applyUpdate_left_then_join (ord : OrderPolicy) (g : GroupCall) (peer : PeerKey)
    (C : Participant) (d : ParticipantsDiff) (hv : d.version = g._version + 1)
    (hd : d.entries = [.left peer, .joinedOrUpdated C]) :
    applyUpdate ord g d = { upsert ord (remove ord g peer) C with _version := d.version } := by
  unfold applyUpdate
  rw [if_pos hv, hd]
  simp only [List.foldl_cons, List.foldl_nil, applyEntry, applyParticipantsSlice]
  rw [mergeOne_of_le]
  rw [version_remove, hv]
  omega

theorem applyUpdate_join_then_left (ord : OrderPolicy) (g : GroupCall) (peer : PeerKey)
    (C : Participant) (d : ParticipantsDiff) (hv : d.version = g._version + 1)
    (hd : d.entries = [.joinedOrUpdated C, .left peer]) :
    applyUpdate ord g d = { remove ord (upsert ord g C) peer with _version := d.version } := by
  unfold applyUpdate
  rw [if_pos hv, hd]
  simp only [List.foldl_cons, List.foldl_nil, applyEntry, applyParticipantsSlice]
  rw [mergeOne_of_le]
  rw [hv]
  omega

theorem findParticipant_upsert_self {ord : OrderPolicy} (hord : ord.Valid) (g : GroupCall)
    (p : Participant) (hu : PeersUnique g) :
    findParticipant (upsert ord g p)._participants p.peer = some p :=
  findParticipant_of_mem (peersUnique_upsert hord g p hu) ((mem_upsert hord g p p).2 (Or.inl rfl))

theorem findParticipant_upsert_other {ord : OrderPolicy} (hord : ord.Valid) (g : GroupCall)
    (p q : Participant) (hu : PeersUnique g) (hq : q ∈ g._participants)
    (hne : q.peer ≠ p.peer) :
    findParticipant (upsert ord g p)._participants q.peer = some q :=
  findParticipant_of_mem (peersUnique_upsert hord g p hu)
    ((mem_upsert hord g p q).2 (Or.inr ⟨hq, hne⟩))

/-- C3. An accepted diff applies joins and departures: in a call at version `v` whose
list holds `B`, a diff at version `v + 1` that signals the departure of `B` and adds a
participant `C` with a fresh ssrc (assigned, and carried by no participant) gives
version `v + 1`, a list that holds `C`, holds nobody with the peer of `B`, keeps every
other participant and holds nothing else, no peer for the ssrc of `B` and the peer of
`C` for the ssrc of `C`.  The two entries may come in either order. -/
theorem accepted_diff_applies_join_and_departure (ord : OrderPolicy) (hord : ord.Valid)
    (g : GroupCall) (B C : Participant) (d : ParticipantsDiff)
    (hu : PeersUnique g) (hB : B ∈ g.participants) (hne : C.peer ≠ B.peer)
    (hC0 : C.ssrc ≠ 0) (hfresh : ∀ q ∈ g.participants, q.ssrc ≠ C.ssrc)
    (hv : d.version = g._version + 1)
    (hd : d.entries = [.left B.peer, .joinedOrUpdated C]
      ∨ d.entries = [.joinedOrUpdated C, .left B.peer]) :
    (applyUpdate ord g d)._version = g._version + 1
      ∧ C ∈ (applyUpdate ord g d).participants
      ∧ (∀ q ∈ (applyUpdate ord g d).participants, q.peer ≠ B.peer)
      ∧ (∀ q ∈ g.participants, q.peer ≠ B.peer → q.peer ≠ C.peer →
          q ∈ (applyUpdate ord g d).participants)
      ∧ (∀ q ∈ (applyUpdate ord g d).participants, q = C ∨ q ∈ g.participants)
      ∧ (applyUpdate ord g d).participantPeerBySsrc B.ssrc = none
      ∧ (applyUpdate ord g d).participantPeerBySsrc C.ssrc = some C.peer := by
  have hBC : B.ssrc ≠ C.ssrc := hfresh B hB
  have hfB : findParticipant g._participants B.peer = some B := findParticipant_of_mem hu hB
  rcases hd with hd | hd
  · rw [applyUpdate_left_then_join ord g B.peer C d hv hd]
    have hu1 := peersUnique_remove hord g B.peer hu
    have hmem : ∀ q, q ∈ (upsert ord (remove ord g B.peer) C)._participants ↔
        q = C ∨ (q ∈ g._participants ∧ q.peer ≠ B.peer ∧ q.peer ≠ C.peer) := by
      intro q
      rw [mem_upsert hord, mem_remove hord]
      tauto
    have hl1 : (remove ord g B.peer).participantPeerBySsrc B.ssrc = none := by
      rw [lookup_remove, hfB]
      simp
    have hlB : (upsert ord (remove ord g B.peer) C).participantPeerBySsrc B.ssrc = none := by
      rw [lookup_upsert]
      cases hf : findParticipant (remove ord g B.peer)._participants C.peer with
      | none =>
        simp only
        rw [if_neg (fun h => hBC h.1), hl1]
      | some old =>
        simp only
        split
        · exact hl1
        · rw [if_neg (fun h => hBC h.1)]
          split
          · rfl
          · exact hl1
    have hlC : (upsert ord (remove ord g B.peer) C).participantPeerBySsrc C.ssrc
        = some C.peer := by
      rw [lookup_upsert]
      cases hf : findParticipant (remove ord g B.peer)._participants C.peer with
      | none =>
        dsimp only
        rw [if_pos ⟨rfl, hC0⟩]
      | some old =>
        dsimp only
        have hold := (mem_remove hord g B.peer old).1 (findParticipant_some hf).1
        rw [if_neg (hfresh old hold.1), if_pos ⟨rfl, hC0⟩]
    refine ⟨hv, (hmem C).2 (Or.inl rfl), ?_, ?_, ?_, hlB, hlC⟩
    · intro q hq
      rcases (hmem q).1 hq with h | h
      · rw [h]; exact hne
      · exact h.2.1
    · intro q hq h1 h2
      exact (hmem q).2 (Or.inr ⟨hq, h1, h2⟩)
    · intro q hq
      rcases (hmem q).1 hq with h | h
      · exact Or.inl h
      · exact Or.inr h.1
  · rw [applyUpdate_join_then_left ord g B.peer C d hv hd]
    have hu1 := peersUnique_upsert hord g C hu
    have hmem : ∀ q, q ∈ (remove ord (upsert ord g C) B.peer)._participants ↔
        q = C ∨ (q ∈ g._participants ∧ q.peer ≠ B.peer ∧ q.peer ≠ C.peer) := by
      intro q
      rw [mem_remove hord, mem_upsert hord]
      constructor
      · rintro ⟨h | h, h2⟩
        · exact Or.inl h
        · exact Or.inr ⟨h.1, h2, h.2⟩
      · rintro (h | h)
        · exact ⟨Or.inl h, by rw [h]; exact hne⟩
        · exact ⟨Or.inr ⟨h.1, h.2.2⟩, h.2.1⟩
    have hfB1 : findParticipant (upsert ord g C)._participants B.peer = some B :=
      findParticipant_upsert_other hord g C B hu hB (fun h => hne h.symm)
    have hlB : (remove ord (upsert ord g C) B.peer).participantPeerBySsrc B.ssrc = none := by
      rw [lookup_remove, hfB1]
      simp
    have hl1 : (upsert ord g C).participantPeerBySsrc C.ssrc = some C.peer := by
      rw [lookup_upsert]
      cases hf : findParticipant g._participants C.peer with
      | none =>
        dsimp only
        rw [if_pos ⟨rfl, hC0⟩]
      | some old =>
        dsimp only
        rw [if_neg (hfresh old (findParticipant_some hf).1), if_pos ⟨rfl, hC0⟩]
    have hlC : (remove ord (upsert ord g C) B.peer).participantPeerBySsrc C.ssrc
        = some C.peer := by
      rw [lookup_remove, hfB1]
      simp only
      rw [if_neg (fun h => hBC h.symm), hl1]
    refine ⟨hv, (hmem C).2 (Or.inl rfl), ?_, ?_, ?_, hlB, hlC⟩
    · intro q hq
      rcases (hmem q).1 hq with h | h
      · rw [h]; exact hne
      · exact h.2.1
    · intro q hq h1 h2
      exact (hmem q).2 (Or.inr ⟨hq, h1, h2⟩)
    · intro q hq
      rcases (hmem q).1 hq with h | h
      · exact Or.inl h
      · exact Or.inr h.1

/-! ## What a paginated slice keeps -/

theorem version_mergeOne (ord : OrderPolicy) (version : Int) (g : GroupCall)
    (p : Participant) : (mergeOne ord version g p)._version = g._version := by
  unfold mergeOne
  cases findParticipant g._participants p.peer with
  | none => exact version_upsert ord g p
  | some old =>
    dsimp only
    split
    · exact version_upsert ord g p
    · rfl

theorem version_foldl_mergeOne (ord : OrderPolicy) (version : Int)
    (l : List Participant) (g : GroupCall) :
    (l.foldl (mergeOne ord version) g)._version = g._version := by
  induction l generalizing g with
  | nil => rfl
  | cons a rest ih =>
    rw [List.foldl_cons, ih, version_mergeOne]

/-- Witness of C1: the index after a slice and a diff on a new call maps ssrc 12 to
peer 3, and the list holds a participant of peer 3 with ssrc 12. -/
theorem index_registry_consistent_witness :
    keepOrder.Valid
      ∧ (applyOps keepOrder (GroupCall.create 100 7 9) scenarioOps).participantPeerBySsrc 12
        = some 3
      ∧ ∃ q ∈ (applyOps keepOrder (GroupCall.create 100 7 9) scenarioOps).participants,
        q.peer = 3 ∧ q.ssrc = 12 :=
  ⟨keepOrder_valid, by decide,
    index_registry_consistent keepOrder keepOrder_valid 100 7 9 scenarioOps 12 3 (by decide)⟩

/-- Witness of C3: the scenario of the specification.  Version 5 with A (ssrc 10) and
B (ssrc 11), then the diff at version 6 in which B leaves and C (ssrc 12) joins: the
result is version 6, the list A, C, no peer for ssrc 11 and C for ssrc 12. -/
theorem accepted_diff_applies_join_and_departure_witness :
    (keepOrder.Valid ∧ PeersUnique (callAB 5) ∧ partB 11 ∈ (callAB 5).participants
        ∧ (partC 12).peer ≠ (partB 11).peer ∧ (partC 12).ssrc ≠ 0
        ∧ (∀ q ∈ (callAB 5).participants, q.ssrc ≠ (partC 12).ssrc)
        ∧ (diffLeaveJoin 6).version = (callAB 5)._version + 1)
      ∧ ((applyUpdate keepOrder (callAB 5) (diffLeaveJoin 6))._version = (callAB 5)._version + 1
        ∧ partC 12 ∈ (applyUpdate keepOrder (callAB 5) (diffLeaveJoin 6)).participants
        ∧ (∀ q ∈ (applyUpdate keepOrder (callAB 5) (diffLeaveJoin 6)).participants,
            q.peer ≠ (partB 11).peer)
        ∧ (∀ q ∈ (callAB 5).participants, q.peer ≠ (partB 11).peer → q.peer ≠ (partC 12).peer →
            q ∈ (applyUpdate keepOrder (callAB 5) (diffLeaveJoin 6)).participants)
        ∧ (∀ q ∈ (applyUpdate keepOrder (callAB 5) (diffLeaveJoin 6)).participants,
            q = partC 12 ∨ q ∈ (callAB 5).participants)
        ∧ (applyUpdate keepOrder (callAB 5) (diffLeaveJoin 6)).participantPeerBySsrc
            (partB 11).ssrc = none
        ∧ (applyUpdate keepOrder (callAB 5) (diffLeaveJoin 6)).participantPeerBySsrc
            (partC 12).ssrc = some (partC 12).peer)
      ∧ (applyUpdate keepOrder (callAB 5) (diffLeaveJoin 6))._version = 6
      ∧ (applyUpdate keepOrder (callAB 5) (diffLeaveJoin 6)).participants = [partA 10, partC 12] :=
  ⟨⟨keepOrder_valid, by unfold PeersUnique; decide, by decide, by decide, by decide, by decide,
      by decide⟩,
    accepted_diff_applies_join_and_departure keepOrder keepOrder_valid (callAB 5) (partB 11)
      (partC 12) (diffLeaveJoin 6) (by unfold PeersUnique; decide) (by decide) (by decide)
      (by decide) (by decide) (by decide) (Or.inl rfl),
    by decide, by decide⟩

/-- C11. The sound-status retention window is one constant of the class, not a field
of a call or of a participant: `GroupCall::kSoundStatusKeptFor` is `crl::time(350)`,
350 milliseconds. -/
theorem kSoundStatusKeptFor_is_350 : GroupCall.kSoundStatusKeptFor = 350 :=
  rfl

/-- C12. Participant sentinels: a `GroupCallParticipant` built from a peer alone has
`date`, `lastActive`, `raisedHandRating`, `ssrc` and `volume` zero, every flag false
except `applyVolumeFromMin`, which is true; and a default `LastSpokeTimes` has
`anything` and `voice` zero. -/
theorem participant_sentinels (peer : PeerKey) :
    ({ peer := peer } : GroupCallParticipant)
        = { peer := peer, date := 0, lastActive := 0, raisedHandRating := 0, ssrc := 0,
            volume := 0, applyVolumeFromMin := true, sounding := false, speaking := false,
            muted := false, mutedByMe := false, canSelfUnmute := false,
            onlyMinLoaded := false }
      ∧ ({} : LastSpokeTimes) = { anything := 0, voice := 0 } :=
  ⟨rfl, rfl⟩

/-- C13. Initial call state: a `GroupCall` as declared starts with version 0, record
start date 0, full count 0, an empty participant list, an empty ssrc index, empty
unknown-ssrc and unknown-peer ledgers, the three request ids 0, `joinMuted` false,
`canChangeJoinMuted` true and `allReceived` false. -/
theorem initial_call_state (peer : PeerKey) (id accessHash : Nat) :
    (GroupCall.create peer id accessHash)._version = 0
      ∧ (GroupCall.create peer id accessHash)._recordStartDate = 0
      ∧ (GroupCall.create peer id accessHash)._fullCount = 0
      ∧ (GroupCall.create peer id accessHash).participants = []
      ∧ (GroupCall.create peer id accessHash)._participantPeerBySsrc = []
      ∧ (GroupCall.create peer id accessHash)._unknownSpokenSsrcs = []
      ∧ (GroupCall.create peer id accessHash)._unknownSpokenPeerIds = []
      ∧ (GroupCall.create peer id accessHash)._participantsRequestId = 0
      ∧ (GroupCall.create peer id accessHash)._reloadRequestId = 0
      ∧ (GroupCall.create peer id accessHash)._unknownParticipantPeersRequestId = 0
      ∧ (GroupCall.create peer id accessHash).joinMuted = false
      ∧ (GroupCall.create peer id accessHash).canChangeJoinMuted = true
      ∧ (GroupCall.create peer id accessHash)._allReceived = false :=
  ⟨rfl, rfl, rfl, rfl, rfl, rfl, rfl, rfl, rfl, rfl, rfl, rfl, rfl⟩

end Data

namespace Platform

/-! ## `GetCounterSlice`, `djbStringHash`, `ForceDisabled` -/

theorem GetCounterSlice_of_lt (counter : Int) (h : counter < 1000) :
    GetCounterSlice counter = counter := by
  unfold GetCounterSlice
  rw [if_neg (by omega)]

theorem GetCounterSlice_of_ge (counter : Int) (h : 1000 ≤ counter) :
    GetCounterSlice counter = 1000 + counter % 100 := by
  unfold GetCounterSlice
  rw [if_pos (by omega), Int.tmod_eq_emod (by omega) (by omega)]

/-- C17. `GetCounterSlice` returns the counter itself below 1000 and
`1000 + (counter mod 100)` from 1000 on, where the result lies between 1000 and 1099;
and it is idempotent.  (From 1000 on the counter is positive, so the truncating `%` of
C++ is the remainder `counter mod 100`.) -/
theorem GetCounterSlice_spec (counter : Int) :
    (counter < 1000 → GetCounterSlice counter = counter)
      ∧ (1000 ≤ counter → GetCounterSlice counter = 1000 + counter % 100
          ∧ 1000 ≤ GetCounterSlice counter ∧ GetCounterSlice counter ≤ 1099)
      ∧ GetCounterSlice (GetCounterSlice counter) = GetCounterSlice counter := by
  refine ⟨GetCounterSlice_of_lt counter, ?_, ?_⟩
  · intro h
    rw [GetCounterSlice_of_ge counter h]
    refine ⟨rfl, ?_, ?_⟩ <;> omega
  · by_cases h : counter < 1000
    · rw [GetCounterSlice_of_lt counter h, GetCounterSlice_of_lt counter h]
    · have h1 : 1000 ≤ counter := by omega
      rw [GetCounterSlice_of_ge counter h1, GetCounterSlice_of_ge _ (by omega)]
      omega

/-- Witness of C17: 1105 is sliced to 1005, which lies between 1000 and 1099, and 999
is kept. -/
theorem GetCounterSlice_spec_witness :
    GetCounterSlice 999 = 999
      ∧ (GetCounterSlice 1105 = 1000 + 1105 % 100
        ∧ 1000 ≤ GetCounterSlice 1105 ∧ GetCounterSlice 1105 ≤ 1099)
      ∧ GetCounterSlice (GetCounterSlice 1105) = GetCounterSlice 1105 :=
  ⟨(GetCounterSlice_spec 999).1 (by decide), (GetCounterSlice_spec 1105).2.1 (by decide),
    (GetCounterSlice_spec 1105).2.2⟩

theorem djbStep_of_lt (charIsSigned : Bool) (hash byte : Nat) (h : byte < 128) :
    djbStep charIsSigned hash byte = (33 * hash + byte) % 2 ^ 32 := by
  unfold djbStep charValue
  have hb : (charIsSigned && decide (128 ≤ byte)) = false := by
    have : decide (128 ≤ byte) = false := by simp; omega
    rw [this, Bool.and_false]
  rw [hb]
  simp only [Bool.false_eq_true, if_false]
  have : (((hash * 32 % 2 ^ 32 + hash) % 2 ^ 32 : Nat) : Int) + (byte : Int)
      = (((hash * 32 % 2 ^ 32 + hash) % 2 ^ 32 + byte : Nat) : Int) := by
    push_cast
    rfl
  rw [this]
  have h2 : ((2 : Int) ^ 32) = ((2 ^ 32 : Nat) : Int) := by norm_num
  rw [h2, ← Int.natCast_mod, Int.toNat_ofNat]
  omega

theorem foldl_djbStep_eq (charIsSigned : Bool) (bytes : List Nat) (hash : Nat)
    (h : ∀ b ∈ bytes, b < 128) :
    bytes.foldl (djbStep charIsSigned) hash
      = bytes.foldl (fun h b => (33 * h + b) % 2 ^ 32) hash := by
  induction bytes generalizing hash with
  | nil => rfl
  | cons b rest ih =>
    rw [List.foldl_cons, List.foldl_cons, djbStep_of_lt charIsSigned hash b
      (h b (List.mem_cons_self _ _))]
    exact ih _ (fun c hc => h c (List.mem_cons_of_mem _ hc))

/-- C18. `djbStringHash` is the 32-bit djb2 hash of the Latin-1 bytes of the string:
when every byte is below 128 the result is `h_n` with `h_0 = 5381` and
`h_i = (33 * h_(i-1) + b_i) mod 2^32`, whatever the signedness of `char`; a string
without bytes hashes to 5381; and two strings with the same bytes have the same
hash. -/
theorem djbStringHash_is_djb2 (env : Desktop) (string : String)
    (h : ∀ b ∈ env.toLatin1 string, b < 128) :
    djbStringHash env string = djb2 (env.toLatin1 string)
      ∧ (env.toLatin1 string = [] → djbStringHash env string = 5381)
      ∧ (∀ other : String, env.toLatin1 other = env.toLatin1 string →
          djbStringHash env other = djbStringHash env string) := by
  refine ⟨foldl_djbStep_eq env.charIsSigned _ 5381 h, ?_, ?_⟩
  · intro he
    unfold djbStringHash
    rw [he]
    rfl
  · intro other ho
    unfold djbStringHash
    rw [ho]

/-- Witness of C18: the string `ab`, bytes 97 and 98, hashes to
`(33 * (33 * 5381 + 97) + 98) mod 2^32 = 5863208`. -/
theorem djbStringHash_is_djb2_witness :
    (∀ b ∈ desktopQtTray.toLatin1 "ab", b < 128)
      ∧ djbStringHash desktopQtTray "ab" = djb2 (desktopQtTray.toLatin1 "ab")
      ∧ djbStringHash desktopQtTray "ab" = 5863208 :=
  ⟨by decide, (djbStringHash_is_djb2 desktopQtTray "ab" (by decide)).1, by decide⟩

/-- C19. `ForceDisabled(action, disabled)` leaves `action.isEnabled()` equal to
`not disabled`, and it calls the setter exactly when the enabled state has to change:
once, with `disabled`, when the action was not in the requested state, and not at all
when it was. -/
theorem ForceDisabled_spec (action : QAction) (disabled : Bool) :
    (ForceDisabled action disabled).isEnabled = !disabled
      ∧ (ForceDisabled action disabled).setDisabledCalls
        = action.setDisabledCalls ++ (if action.isEnabled = !disabled then [] else [disabled]) := by
  obtain ⟨enabled, calls⟩ := action
  cases enabled <;> cases disabled <;>
    simp [ForceDisabled, QAction.isEnabled, QAction.setDisabled]

/-! ## The tray icon cache -/

theorem isIconRegenerationNeeded_update (env : Desktop) (cache : TrayIconCache) (icon : QIcon)
    (c : Int) (m : Bool) (theme : String) (c2 : Int) (m2 : Bool) (theme2 : String) :
    IsIconRegenerationNeeded env (UpdateIconRegenerationNeeded env cache icon c m theme)
        c2 m2 theme2
      = (icon.isNull
        || theme2 != theme
        || GetTrayIconName env c2 m2 != GetTrayIconName env c m
        || m2 != m
        || GetCounterSlice c2 != GetCounterSlice c) :=
  rfl

theorem getTrayIconName_of_pos (env : Desktop) (c c2 : Int) (m : Bool) (h : 0 < c)
    (h2 : 0 < c2) : GetTrayIconName env c2 m = GetTrayIconName env c m := by
  unfold GetTrayIconName GetPanelIconName
  rw [if_pos h, if_pos h2]

/-- C14. Tray icon cache coherence: right after
`UpdateIconRegenerationNeeded(icon, c, m, theme)` with a non-null icon,
`IsIconRegenerationNeeded(c2, m2, theme2)` (same icon-theme lookup) is false exactly
when `theme2 = theme`, `m2 = m`, the tray icon names agree and the counter slices
agree.  So it is false for the same arguments, and false for two counters from 1000 on
that agree modulo 100, for which `TrayIconGen` returns the cached icon and leaves the
cache alone. -/
theorem tray_icon_cache_coherent (env : Desktop) (cache : TrayIconCache) (icon : QIcon)
    (c : Int) (m : Bool) (theme : String) (hicon : icon.isNull = false) :
    (∀ (c2 : Int) (m2 : Bool) (theme2 : String),
        IsIconRegenerationNeeded env (UpdateIconRegenerationNeeded env cache icon c m theme)
            c2 m2 theme2 = false
          ↔ (theme2 = theme ∧ m2 = m ∧ GetTrayIconName env c2 m2 = GetTrayIconName env c m
              ∧ GetCounterSlice c2 = GetCounterSlice c))
      ∧ IsIconRegenerationNeeded env (UpdateIconRegenerationNeeded env cache icon c m theme)
          c m theme = false
      ∧ (∀ c2 : Int, 1000 ≤ c → 1000 ≤ c2 → c2 % 100 = c % 100 →
          IsIconRegenerationNeeded env (UpdateIconRegenerationNeeded env cache icon c m theme)
              c2 m theme = false
            ∧ (theme = env.themeName →
                TrayIconGen env (UpdateIconRegenerationNeeded env cache icon c m theme) c2 m
                  = (icon, UpdateIconRegenerationNeeded env cache icon c m theme))) := by
  have hiff : ∀ (c2 : Int) (m2 : Bool) (theme2 : String),
      IsIconRegenerationNeeded env (UpdateIconRegenerationNeeded env cache icon c m theme)
          c2 m2 theme2 = false
        ↔ (theme2 = theme ∧ m2 = m ∧ GetTrayIconName env c2 m2 = GetTrayIconName env c m
            ∧ GetCounterSlice c2 = GetCounterSlice c) := by
    intro c2 m2 theme2
    rw [isIconRegenerationNeeded_update, hicon]
    simp only [Bool.false_or, Bool.or_eq_false_iff, bne_eq_false_iff_eq]
    tauto
  refine ⟨hiff, (hiff c m theme).2 ⟨rfl, rfl, rfl, rfl⟩, ?_⟩
  intro c2 hc hc2 hmod
  have hfalse : IsIconRegenerationNeeded env
      (UpdateIconRegenerationNeeded env cache icon c m theme) c2 m theme = false := by
    refine (hiff c2 m theme).2 ⟨rfl, rfl, getTrayIconName_of_pos env c c2 m (by omega) (by omega), ?_⟩
    rw [GetCounterSlice_of_ge c hc, GetCounterSlice_of_ge c2 hc2, hmod]
  refine ⟨hfalse, ?_⟩
  intro htheme
  unfold TrayIconGen
  simp only
  rw [← htheme, hfalse]
  rfl

/-- Witness of C14: the cache filled for counter 1005 answers counter 1105. -/
theorem tray_icon_cache_coherent_witness :
    (QIcon.image 7).isNull = false
      ∧ IsIconRegenerationNeeded desktopQtTray
          (UpdateIconRegenerationNeeded desktopQtTray {} (.image 7) 1005 false "hicolor")
          1105 false "hicolor" = false
      ∧ TrayIconGen desktopQtTray
          (UpdateIconRegenerationNeeded desktopQtTray {} (.image 7) 1005 false "hicolor")
          1105 false
        = (.image 7, UpdateIconRegenerationNeeded desktopQtTray {} (.image 7) 1005 false "hicolor") :=
  ⟨rfl,
    ((tray_icon_cache_coherent desktopQtTray {} (.image 7) 1005 false "hicolor" rfl).2.2 1105
      (by decide) (by decide) (by decide)).1,
    ((tray_icon_cache_coherent desktopQtTray {} (.image 7) 1005 false "hicolor" rfl).2.2 1105
      (by decide) (by decide) (by decide)).2 rfl⟩

/-! ## The Unity launcher counter -/

theorem dbusUnityProperties_of_pos (counter : Int) (h : 0 < counter) :
    (dbusUnityProperties counter).value "count-visible" = some (.bool true)
      ∧ (dbusUnityProperties counter).value "count" = some (.int64 (min counter 9999)) := by
  unfold dbusUnityProperties
  rw [if_pos h]
  refine ⟨by simp [QVariantMap.insert, QVariantMap.value], ?_⟩
  by_cases h2 : counter > 9999
  · rw [if_pos h2, min_eq_right (by omega)]
    simp [QVariantMap.insert, QVariantMap.value]
  · rw [if_neg h2, min_eq_left (by omega)]
    simp [QVariantMap.insert, QVariantMap.value]

theorem dbusUnityProperties_of_nonpos (counter : Int) (h : counter ≤ 0) :
    (dbusUnityProperties counter).value "count-visible" = some (.bool false)
      ∧ (dbusUnityProperties counter).value "count" = none := by
  unfold dbusUnityProperties
  rw [if_neg (by omega)]
  constructor <;> simp [QVariantMap.insert, QVariantMap.value]

theorem setSNITrayIcon_frame (env : Desktop) (w : MainWindow) (counter : Int) (muted : Bool) :
    (setSNITrayIcon env w counter muted).trayIcon = w.trayIcon
      ∧ (setSNITrayIcon env w counter muted).SNIAvailable = w.SNIAvailable
      ∧ (setSNITrayIcon env w counter muted).trayIconSupported = w.trayIconSupported
      ∧ (setSNITrayIcon env w counter muted).sentToUnity = w.sentToUnity := by
  unfold setSNITrayIcon
  cases w._sniTrayIcon with
  | none => exact ⟨rfl, rfl, rfl, rfl⟩
  | some item =>
    simp only
    split
    · split
      · exact ⟨rfl, rfl, rfl, rfl⟩
      · exact ⟨rfl, rfl, rfl, rfl⟩
    · split
      · split
        · exact ⟨rfl, rfl, rfl, rfl⟩
        · exact ⟨rfl, rfl, rfl, rfl⟩
      · split
        · exact ⟨rfl, rfl, rfl, rfl⟩
        · exact ⟨rfl, rfl, rfl, rfl⟩

theorem sniStep_sent (env : Desktop) (w : MainWindow) (counter : Int) (muted : Bool) :
    (if w._sniTrayIcon.isSome then setSNITrayIcon env w counter muted else w).sentToUnity
      = w.sentToUnity := by
  split
  · exact (setSNITrayIcon_frame env w counter muted).2.2.2
  · rfl

theorem trayStep_sent (env : Desktop) (w : MainWindow) :
    (match w.trayIcon with
      | some icon =>
        if IsIconRegenerationNeeded env w.tray env.unreadBadge env.unreadBadgeMuted
            env.themeName then
          { w with
            trayIcon := some { icon with
              icon := (TrayIconGen env w.tray env.unreadBadge env.unreadBadgeMuted).1 }
            tray := (TrayIconGen env w.tray env.unreadBadge env.unreadBadgeMuted).2 }
        else w
      | none => w).sentToUnity = w.sentToUnity := by
  cases w.trayIcon with
  | none => rfl
  | some icon =>
    dsimp only
    split <;> rfl

/-- The signal `updateIconCounters` sends to the Unity launcher entry. -/
theorem updateIconCounters_sent (env : Desktop) (w : MainWindow) :
    (updateIconCounters env w).sentToUnity
      = w.sentToUnity ++
        (if env.useUnityCounter then [unityLauncherSignal env env.unreadBadge] else []) := by
  unfold updateIconCounters
  dsimp only
  rw [trayStep_sent, sniStep_sent]
  cases env.useUnityCounter with
  | true => rfl
  | false => exact (List.append_nil _).symm

/-- C15. Unity launcher counter: when the Unity launcher is used, `updateIconCounters`
sends it one signal, whose properties hold `count-visible = true` and
`count = min(counter, 9999)` when the unread counter is positive, and
`count-visible = false` and no `count` key when it is zero or negative. -/
theorem unity_launcher_counter (env : Desktop) (w : MainWindow)
    (h : env.useUnityCounter = true) :
    ∃ signal, (updateIconCounters env w).sentToUnity = w.sentToUnity ++ [signal]
      ∧ (0 < env.unreadBadge →
          signal.properties.value "count-visible" = some (.bool true)
            ∧ signal.properties.value "count" = some (.int64 (min env.unreadBadge 9999)))
      ∧ (env.unreadBadge ≤ 0 →
          signal.properties.value "count-visible" = some (.bool false)
            ∧ signal.properties.value "count" = none) := by
  refine ⟨unityLauncherSignal env env.unreadBadge, ?_,
    dbusUnityProperties_of_pos env.unreadBadge, dbusUnityProperties_of_nonpos env.unreadBadge⟩
  rw [updateIconCounters_sent, if_pos h]

/-- Witness of C15: an unread counter of 12000 is sent as `count = 9999`. -/
theorem unity_launcher_counter_witness :
    desktopQtTray.useUnityCounter = true
      ∧ ∃ signal, (updateIconCounters desktopQtTray {}).sentToUnity
          = ({} : MainWindow).sentToUnity ++ [signal]
        ∧ (0 < desktopQtTray.unreadBadge →
            signal.properties.value "count-visible" = some (.bool true)
              ∧ signal.properties.value "count"
                = some (.int64 (min desktopQtTray.unreadBadge 9999)))
        ∧ (desktopQtTray.unreadBadge ≤ 0 →
            signal.properties.value "count-visible" = some (.bool false)
              ∧ signal.properties.value "count" = none) :=
  ⟨rfl, unity_launcher_counter desktopQtTray {} rfl⟩

/-! ## The owner of the tray watcher service changes -/

theorem sniStep_frame (env : Desktop) (w : MainWindow) (counter : Int) (muted : Bool) :
    (if w._sniTrayIcon.isSome then setSNITrayIcon env w counter muted else w).trayIcon
        = w.trayIcon
      ∧ (if w._sniTrayIcon.isSome then setSNITrayIcon env w counter muted else w).SNIAvailable
        = w.SNIAvailable
      ∧ (if w._sniTrayIcon.isSome then setSNITrayIcon env w counter muted
          else w).trayIconSupported = w.trayIconSupported := by
  split
  · exact ⟨(setSNITrayIcon_frame env w counter muted).1,
      (setSNITrayIcon_frame env w counter muted).2.1,
      (setSNITrayIcon_frame env w counter muted).2.2.1⟩
  · exact ⟨rfl, rfl, rfl⟩

theorem trayStep_frame (env : Desktop) (w : MainWindow) :
    ((match w.trayIcon with
      | some icon =>
        if IsIconRegenerationNeeded env w.tray env.unreadBadge env.unreadBadgeMuted
            env.themeName then
          { w with
            trayIcon := some { icon with
              icon := (TrayIconGen env w.tray env.unreadBadge env.unreadBadgeMuted).1 }
            tray := (TrayIconGen env w.tray env.unreadBadge env.unreadBadgeMuted).2 }
        else w
      | none => w).trayIcon.isSome = w.trayIcon.isSome)
    ∧ ((match w.trayIcon with
      | some icon =>
        if IsIconRegenerationNeeded env w.tray env.unreadBadge env.unreadBadgeMuted
            env.themeName then
          { w with
            trayIcon := some { icon with
              icon := (TrayIconGen env w.tray env.unreadBadge env.unreadBadgeMuted).1 }
            tray := (TrayIconGen env w.tray env.unreadBadge env.unreadBadgeMuted).2 }
        else w
      | none => w).SNIAvailable = w.SNIAvailable)
    ∧ ((match w.trayIcon with
      | some icon =>
        if IsIconRegenerationNeeded env w.tray env.unreadBadge env.unreadBadgeMuted
            env.themeName then
          { w with
            trayIcon := some { icon with
              icon := (TrayIconGen env w.tray env.unreadBadge env.unreadBadgeMuted).1 }
            tray := (TrayIconGen env w.tray env.unreadBadge env.unreadBadgeMuted).2 }
        else w
      | none => w).trayIconSupported = w.trayIconSupported) := by
  cases h : w.trayIcon with
  | none => exact ⟨by rw [h], rfl, rfl⟩
  | some icon =>
    dsimp only
    split
    · exact ⟨rfl, rfl, rfl⟩
    · exact ⟨by rw [h], rfl, rfl⟩

/-- What `updateIconCounters` leaves alone: whether there is a `trayIcon`, the flag
`SNIAvailable` and the tray-supported flag. -/
theorem updateIconCounters_frame (env : Desktop) (w : MainWindow) :
    (updateIconCounters env w).trayIcon.isSome = w.trayIcon.isSome
      ∧ (updateIconCounters env w).SNIAvailable = w.SNIAvailable
      ∧ (updateIconCounters env w).trayIconSupported = w.trayIconSupported := by
  unfold updateIconCounters
  dsimp only
  obtain ⟨h1, h2, h3⟩ := trayStep_frame env
    (if (if env.useUnityCounter then
          { w with sentToUnity := w.sentToUnity ++ [unityLauncherSignal env env.unreadBadge] }
        else w)._sniTrayIcon.isSome then
      setSNITrayIcon env
        (if env.useUnityCounter then
          { w with sentToUnity := w.sentToUnity ++ [unityLauncherSignal env env.unreadBadge] }
        else w) env.unreadBadge env.unreadBadgeMuted
    else
      (if env.useUnityCounter then
          { w with sentToUnity := w.sentToUnity ++ [unityLauncherSignal env env.unreadBadge] }
        else w))
  obtain ⟨k1, k2, k3⟩ := sniStep_frame env
    (if env.useUnityCounter then
      { w with sentToUnity := w.sentToUnity ++ [unityLauncherSignal env env.unreadBadge] }
    else w) env.unreadBadge env.unreadBadgeMuted
  rw [h1, h2, h3, k1, k2, k3]
  cases env.useUnityCounter <;> exact ⟨rfl, rfl, rfl⟩

theorem updateIconCounters_after_sni (env : Desktop) (w1 w : MainWindow)
    (h1 : w1.trayIcon = w.trayIcon) (h2 : w1.SNIAvailable = w.SNIAvailable)
    (h3 : w1.trayIconSupported = w.trayIconSupported) :
    (updateIconCounters env w1).SNIAvailable = w.SNIAvailable
      ∧ (updateIconCounters env w1).trayIconSupported = w.trayIconSupported
      ∧ (w.trayIcon = none → (updateIconCounters env w1).trayIcon = none) := by
  obtain ⟨f1, f2, f3⟩ := updateIconCounters_frame env w1
  refine ⟨f2.trans h2, f3.trans h3, fun hnone => ?_⟩
  refine Option.not_isSome_iff_eq_none.1 ?_
  rw [f1, h1, hnone]
  simp

theorem updateIconCounters_after_qt (env : Desktop) (w1 w : MainWindow)
    (h1 : w1.trayIcon.isSome = true) (h2 : w1.SNIAvailable = w.SNIAvailable)
    (h3 : w1.trayIconSupported = w.trayIconSupported) :
    (updateIconCounters env w1).SNIAvailable = w.SNIAvailable
      ∧ (updateIconCounters env w1).trayIconSupported = w.trayIconSupported
      ∧ ∃ icon, (updateIconCounters env w1).trayIcon.map
          (fun icon => { icon with visible := true }) = some { icon := icon, visible := true } := by
  obtain ⟨f1, f2, f3⟩ := updateIconCounters_frame env w1
  refine ⟨f2.trans h2, f3.trans h3, ?_⟩
  rw [h1] at f1
  obtain ⟨t, ht⟩ := Option.isSome_iff_exists.1 f1
  exact ⟨t.icon, by rw [ht]; rfl⟩

/-- What `psSetupTrayIcon` does to the three fields: the two flags are kept; with SNI
available a missing `trayIcon` stays missing; without SNI the window ends with a
shown `trayIcon`. -/
theorem psSetupTrayIcon_effect (env : Desktop) (w : MainWindow) :
    (psSetupTrayIcon env w).SNIAvailable = w.SNIAvailable
      ∧ (psSetupTrayIcon env w).trayIconSupported = w.trayIconSupported
      ∧ (w.SNIAvailable = true → w.trayIcon = none → (psSetupTrayIcon env w).trayIcon = none)
      ∧ (w.SNIAvailable = false →
          ∃ icon, (psSetupTrayIcon env w).trayIcon = some { icon := icon, visible := true }) := by
  unfold psSetupTrayIcon
  dsimp only
  by_cases hs : w.SNIAvailable = true
  · rw [if_pos hs]
    have hno : ¬ w.SNIAvailable = false := by rw [hs]; simp
    cases hi : w._sniTrayIcon with
    | none =>
      dsimp only
      obtain ⟨f1, f2, f3, _⟩ := setSNITrayIcon_frame env
        { w with _sniTrayIcon := some env.sniCreate } env.unreadBadge env.unreadBadgeMuted
      obtain ⟨k1, k2, k3⟩ := updateIconCounters_after_sni env
        { setSNITrayIcon env { w with _sniTrayIcon := some env.sniCreate } env.unreadBadge
            env.unreadBadgeMuted with
          _sniTrayIcon := (setSNITrayIcon env { w with _sniTrayIcon := some env.sniCreate }
            env.unreadBadge env.unreadBadgeMuted)._sniTrayIcon.map env.sniAttach } w f1 f2 f3
      exact ⟨k1, k2, fun _ => k3, fun h => absurd h hno⟩
    | some item =>
      dsimp only
      obtain ⟨k1, k2, k3⟩ := updateIconCounters_after_sni env w w rfl rfl rfl
      exact ⟨k1, k2, fun _ => k3, fun h => absurd h hno⟩
  · rw [if_neg hs]
    cases hi : w.trayIcon with
    | none =>
      dsimp only
      obtain ⟨k1, k2, k3⟩ := updateIconCounters_after_qt env
        { w with
          trayIcon := some { icon := (TrayIconGen env w.tray env.unreadBadge
            env.unreadBadgeMuted).1 }
          tray := (TrayIconGen env w.tray env.unreadBadge env.unreadBadgeMuted).2 } w rfl rfl rfl
      exact ⟨k1, k2, fun h => absurd h hs, fun _ => k3⟩
    | some t =>
      dsimp only
      obtain ⟨k1, k2, k3⟩ := updateIconCounters_after_qt env w w (by rw [hi]; rfl) rfl rfl
      exact ⟨k1, k2, fun h => absurd h hs, fun _ => k3⟩

theorem switchTrayIcon_effect (env : Desktop) (w : MainWindow) (newOwner : String) :
    (switchTrayIcon env w newOwner).SNIAvailable = !newOwner.isEmpty
      ∧ (switchTrayIcon env w newOwner).trayIconSupported
        = (!newOwner.isEmpty || env.isSystemTrayAvailable)
      ∧ ((newOwner.isEmpty = false ∨ env.isSystemTrayAvailable = false) →
          (switchTrayIcon env w newOwner).trayIcon = none)
      ∧ (newOwner.isEmpty = true → env.isSystemTrayAvailable = true →
          ∃ icon, (switchTrayIcon env w newOwner).trayIcon
            = some { icon := icon, visible := true }) := by
  unfold switchTrayIcon
  dsimp only
  by_cases ht : (!newOwner.isEmpty || env.isSystemTrayAvailable) = true
  · rw [if_pos ht]
    obtain ⟨p1, p2, p3, p4⟩ := psSetupTrayIcon_effect env
      { w with
        trayIcon := none
        SNIAvailable := !newOwner.isEmpty
        trayIconSupported := (!newOwner.isEmpty || env.isSystemTrayAvailable) }
    refine ⟨p1, p2, fun h => p3 ?_ rfl, fun hn _ => p4 ?_⟩
    · show (!newOwner.isEmpty) = true
      rcases h with h | h
      · rw [h]; rfl
      · rw [h, Bool.or_false] at ht
        exact ht
    · show (!newOwner.isEmpty) = false
      rw [hn]; rfl
  · rw [if_neg ht]
    refine ⟨rfl, rfl, fun _ => rfl, fun hn ha => absurd ?_ ht⟩
    rw [hn, ha]
    rfl

theorem setSNITrayIcon_item (env : Desktop) (w : MainWindow) (counter : Int) (muted : Bool) :
    (setSNITrayIcon env w counter muted)._sniTrayIcon.isSome = w._sniTrayIcon.isSome := by
  unfold setSNITrayIcon
  cases h : w._sniTrayIcon with
  | none => simp only [h]
  | some item =>
    simp only
    split
    · split
      · rw [h]
      · rfl
    · split
      · split
        · rw [h]
        · dsimp only
          cases env.trayIconFile
            (TrayIconGen env w.tray counter muted).1 <;> rfl
      · split
        · rw [h]
        · rfl

theorem updateIconCounters_item (env : Desktop) (w : MainWindow) :
    (updateIconCounters env w)._sniTrayIcon.isSome = w._sniTrayIcon.isSome := by
  unfold updateIconCounters
  dsimp only
  have h1 : ∀ v : MainWindow,
      (match v.trayIcon with
        | some icon =>
          if IsIconRegenerationNeeded env v.tray env.unreadBadge env.unreadBadgeMuted
              env.themeName then
            { v with
              trayIcon := some { icon with
                icon := (TrayIconGen env v.tray env.unreadBadge env.unreadBadgeMuted).1 }
              tray := (TrayIconGen env v.tray env.unreadBadge env.unreadBadgeMuted).2 }
          else v
        | none => v)._sniTrayIcon = v._sniTrayIcon := by
    intro v
    cases v.trayIcon with
    | none => rfl
    | some icon =>
      dsimp only
      split <;> rfl
  rw [h1]
  have h2 : ∀ v : MainWindow,
      (if v._sniTrayIcon.isSome then
        setSNITrayIcon env v env.unreadBadge env.unreadBadgeMuted else v)._sniTrayIcon.isSome
        = v._sniTrayIcon.isSome := by
    intro v
    split
    · exact setSNITrayIcon_item env v _ _
    · rfl
  rw [h2]
  cases env.useUnityCounter <;> rfl

/-- With no `_sniTrayIcon`, `updateIconCounters` gives a `trayIcon` the generated icon
when the cache asks for a regeneration and leaves it alone otherwise. -/
theorem updateIconCounters_trayIcon (env : Desktop) (w : MainWindow) (t : QSystemTrayIcon)
    (hi : w._sniTrayIcon = none) (ht : w.trayIcon = some t) :
    (updateIconCounters env w).trayIcon
      = some { t with
          icon :=
            if IsIconRegenerationNeeded env w.tray env.unreadBadge env.unreadBadgeMuted
                env.themeName then
              (TrayIconGen env w.tray env.unreadBadge env.unreadBadgeMuted).1
            else t.icon } := by
  unfold updateIconCounters
  dsimp only
  cases env.useUnityCounter with
  | false =>
    simp only [hi, ht, Option.isSome_none, Bool.false_eq_true, if_false]
    split <;> first | rfl | exact ht
  | true =>
    simp only [hi, ht, Option.isSome_none, Bool.false_eq_true, if_false, if_true]
    split <;> rfl

theorem psSetupTrayIcon_item (env : Desktop) (w : MainWindow) (hs : w.SNIAvailable = true) :
    (psSetupTrayIcon env w)._sniTrayIcon.isSome = true := by
  unfold psSetupTrayIcon
  dsimp only
  rw [if_pos hs, updateIconCounters_item]
  cases hi : w._sniTrayIcon with
  | none =>
    dsimp only
    have := setSNITrayIcon_item env { w with _sniTrayIcon := some env.sniCreate }
      env.unreadBadge env.unreadBadgeMuted
    rw [Option.isSome_map', this]
    rfl
  | some item =>
    dsimp only
    rw [hi]
    rfl

theorem psSetupTrayIcon_sent (env : Desktop) (w : MainWindow) :
    (psSetupTrayIcon env w).sentToUnity
      = w.sentToUnity ++
        (if env.useUnityCounter then [unityLauncherSignal env env.unreadBadge] else []) := by
  unfold psSetupTrayIcon
  dsimp only
  by_cases hs : w.SNIAvailable = true
  · rw [if_pos hs, updateIconCounters_sent]
    cases hi : w._sniTrayIcon with
    | none =>
      dsimp only
      rw [(setSNITrayIcon_frame env { w with _sniTrayIcon := some env.sniCreate }
        env.unreadBadge env.unreadBadgeMuted).2.2.2]
    | some item => rfl
  · rw [if_neg hs]
    dsimp only
    rw [updateIconCounters_sent]
    cases hi : w.trayIcon with
    | none => rfl
    | some t => rfl

/-- Without SNI, without a `trayIcon` and without a `_sniTrayIcon`, `psSetupTrayIcon`
leaves a shown `trayIcon` whose icon is the one `TrayIconGen` returns, generated again
when the cache it left still asks for a regeneration. -/
theorem psSetupTrayIcon_creates (env : Desktop) (w : MainWindow)
    (hs : w.SNIAvailable = false) (ht : w.trayIcon = none) (hi : w._sniTrayIcon = none) :
    (psSetupTrayIcon env w).trayIcon
      = some
        { icon :=
            if IsIconRegenerationNeeded env
                (TrayIconGen env w.tray env.unreadBadge env.unreadBadgeMuted).2
                env.unreadBadge env.unreadBadgeMuted env.themeName then
              (TrayIconGen env (TrayIconGen env w.tray env.unreadBadge env.unreadBadgeMuted).2
                env.unreadBadge env.unreadBadgeMuted).1
            else (TrayIconGen env w.tray env.unreadBadge env.unreadBadgeMuted).1
          visible := true } := by
  unfold psSetupTrayIcon
  dsimp only
  rw [if_neg (by rw [hs]; simp), ht]
  dsimp only
  rw [updateIconCounters_trayIcon env
    { w with
      trayIcon := some { icon := (TrayIconGen env w.tray env.unreadBadge env.unreadBadgeMuted).1 }
      tray := (TrayIconGen env w.tray env.unreadBadge env.unreadBadgeMuted).2 }
    { icon := (TrayIconGen env w.tray env.unreadBadge env.unreadBadgeMuted).1 } hi rfl]
  rfl

/-- The two switching cases of `handleSNIOwnerChanged` run `switchTrayIcon`. -/
theorem handleSNIOwnerChanged_switch (env : Desktop) (w : MainWindow)
    (service oldOwner newOwner : String) (hm : w.workMode ≠ .dbiwmWindowOnly)
    (hne : oldOwner.isEmpty ≠ newOwner.isEmpty) :
    handleSNIOwnerChanged env w service oldOwner newOwner = switchTrayIcon env w newOwner := by
  unfold handleSNIOwnerChanged
  rw [if_neg hm]
  cases ho : oldOwner.isEmpty <;> cases hn : newOwner.isEmpty <;> simp_all

/-- C16 as amended. `handleSNIOwnerChanged(service, oldOwner, newOwner)` returns the
state as it was when the work mode is window-only, or when `oldOwner` and `newOwner`
are both empty or both non-empty.  In every other case:
* it discards the current `trayIcon`, sets `SNIAvailable` to (`newOwner` is non-empty)
  and the tray-supported flag to `SNIAvailable` or the Qt system tray being available,
  and, when a tray is available, returns what `psSetupTrayIcon` makes of that state;
* the `trayIcon` held before makes no difference to the state returned;
* `trayIcon` ends null when `newOwner` is non-empty or the Qt system tray is not
  available; when `newOwner` is non-empty the window ends with a `_sniTrayIcon`;
* when a tray is available, `updateIconCounters` has run once: the Unity launcher, if
  used, was sent one signal;
* when `newOwner` is empty and the Qt system tray is available, `trayIcon` ends as a
  shown `QSystemTrayIcon`; with no `_sniTrayIcon` left its icon is the one `TrayIconGen`
  returns for the unread counter, generated again when the cache still asks for it. -/
theorem sni_owner_change (env : Desktop) (w : MainWindow) (service oldOwner newOwner : String) :
    ((w.workMode = .dbiwmWindowOnly ∨ oldOwner.isEmpty = newOwner.isEmpty) →
        handleSNIOwnerChanged env w service oldOwner newOwner = w)
      ∧ (w.workMode ≠ .dbiwmWindowOnly → oldOwner.isEmpty ≠ newOwner.isEmpty →
        handleSNIOwnerChanged env w service oldOwner newOwner
            = (if (!newOwner.isEmpty || env.isSystemTrayAvailable) = true then
                psSetupTrayIcon env
                  { w with
                    trayIcon := none
                    SNIAvailable := !newOwner.isEmpty
                    trayIconSupported := (!newOwner.isEmpty || env.isSystemTrayAvailable) }
              else
                { w with
                  trayIcon := none
                  SNIAvailable := !newOwner.isEmpty
                  trayIconSupported := (!newOwner.isEmpty || env.isSystemTrayAvailable) })
          ∧ (∀ old : Option QSystemTrayIcon,
              handleSNIOwnerChanged env { w with trayIcon := old } service oldOwner newOwner
                = handleSNIOwnerChanged env w service oldOwner newOwner)
          ∧ (handleSNIOwnerChanged env w service oldOwner newOwner).SNIAvailable
            = !newOwner.isEmpty
          ∧ (handleSNIOwnerChanged env w service oldOwner newOwner).trayIconSupported
            = (!newOwner.isEmpty || env.isSystemTrayAvailable)
          ∧ ((newOwner.isEmpty = false ∨ env.isSystemTrayAvailable = false) →
              (handleSNIOwnerChanged env w service oldOwner newOwner).trayIcon = none)
          ∧ (newOwner.isEmpty = false →
              (handleSNIOwnerChanged env w service oldOwner newOwner)._sniTrayIcon.isSome = true)
          ∧ ((!newOwner.isEmpty || env.isSystemTrayAvailable) = true →
              (handleSNIOwnerChanged env w service oldOwner newOwner).sentToUnity
                = w.sentToUnity ++
                  (if env.useUnityCounter then [unityLauncherSignal env env.unreadBadge]
                    else []))
          ∧ (newOwner.isEmpty = true → env.isSystemTrayAvailable = true →
              (∃ icon, (handleSNIOwnerChanged env w service oldOwner newOwner).trayIcon
                = some { icon := icon, visible := true })
              ∧ (w._sniTrayIcon = none →
                (handleSNIOwnerChanged env w service oldOwner newOwner).trayIcon
                  = some
                    { icon :=
                        if IsIconRegenerationNeeded env
                            (TrayIconGen env w.tray env.unreadBadge env.unreadBadgeMuted).2
                            env.unreadBadge env.unreadBadgeMuted env.themeName then
                          (TrayIconGen env
                            (TrayIconGen env w.tray env.unreadBadge env.unreadBadgeMuted).2
                            env.unreadBadge env.unreadBadgeMuted).1
                        else (TrayIconGen env w.tray env.unreadBadge env.unreadBadgeMuted).1
                      visible := true }))) := by
  constructor
  · intro h
    unfold handleSNIOwnerChanged
    rcases h with h | h
    · rw [if_pos h]
    · by_cases hm : w.workMode = .dbiwmWindowOnly
      · rw [if_pos hm]
      · rw [if_neg hm, h]
        cases newOwner.isEmpty <;> simp
  · intro hm hne
    have hsw := handleSNIOwnerChanged_switch env w service oldOwner newOwner hm hne
    obtain ⟨e1, e2, e3, e4⟩ := switchTrayIcon_effect env w newOwner
    refine ⟨?_, ?_, ?_, ?_, ?_, ?_, ?_, ?_⟩
    · rw [hsw]
      rfl
    · intro old
      rw [hsw, handleSNIOwnerChanged_switch env { w with trayIcon := old } service oldOwner
        newOwner hm hne]
      rfl
    · rw [hsw]
      exact e1
    · rw [hsw]
      exact e2
    · rw [hsw]
      exact e3
    · intro hn
      rw [hsw]
      unfold switchTrayIcon
      dsimp only
      rw [if_pos (by rw [hn]; rfl)]
      exact psSetupTrayIcon_item env _ (by show (!newOwner.isEmpty) = true; rw [hn]; rfl)
    · intro ha
      rw [hsw]
      unfold switchTrayIcon
      dsimp only
      rw [if_pos ha, psSetupTrayIcon_sent]
    · intro hn ha
      refine ⟨by rw [hsw]; exact e4 hn ha, fun hi => ?_⟩
      rw [hsw]
      unfold switchTrayIcon
      dsimp only
      rw [if_pos (by rw [hn, ha]; rfl)]
      exact psSetupTrayIcon_creates env
        { w with
          trayIcon := none
          SNIAvailable := !newOwner.isEmpty
          trayIconSupported := (!newOwner.isEmpty || env.isSystemTrayAvailable) }
        (by show (!newOwner.isEmpty) = false; rw [hn]; rfl) rfl hi

/-- Witness of C16 as amended, on a window that shows a Qt tray icon with icon 77 while
the cache holds icon 7.  When the watcher service loses its owner the window ends with
a shown `trayIcon` whose icon is the one of the cache, not the one held before; when
the service gets an owner, SNI becomes available, the tray is supported, the window
has no `trayIcon` and it has a `_sniTrayIcon`. -/
theorem sni_owner_change_witness :
    (windowQtTray.workMode ≠ .dbiwmWindowOnly
        ∧ (":1.5" : String).isEmpty ≠ ("" : String).isEmpty
        ∧ ("" : String).isEmpty ≠ (":1.5" : String).isEmpty
        ∧ desktopQtTray.isSystemTrayAvailable = true
        ∧ windowQtTray._sniTrayIcon = none
        ∧ windowQtTray.trayIcon = some { icon := .image 77, visible := true })
      ∧ (handleSNIOwnerChanged desktopQtTray windowQtTray "org.kde.StatusNotifierWatcher"
          ":1.5" "").trayIcon = some { icon := .image 7, visible := true }
      ∧ (handleSNIOwnerChanged desktopQtTray windowQtTray "org.kde.StatusNotifierWatcher"
          ":1.5" "").SNIAvailable = false
      ∧ (handleSNIOwnerChanged desktopQtTray windowQtTray "org.kde.StatusNotifierWatcher"
          "" ":1.5").SNIAvailable = true
      ∧ (handleSNIOwnerChanged desktopQtTray windowQtTray "org.kde.StatusNotifierWatcher"
          "" ":1.5").trayIconSupported = true
      ∧ (handleSNIOwnerChanged desktopQtTray windowQtTray "org.kde.StatusNotifierWatcher"
          "" ":1.5").trayIcon = none
      ∧ (handleSNIOwnerChanged desktopQtTray windowQtTray "org.kde.StatusNotifierWatcher"
          "" ":1.5")._sniTrayIcon.isSome = true :=
  ⟨⟨by decide, by decide, by decide, rfl, rfl, rfl⟩,
    ((((sni_owner_change desktopQtTray windowQtTray "org.kde.StatusNotifierWatcher" ":1.5"
      "").2 (by decide) (by decide)).2.2.2.2.2.2.2 (by decide) rfl).2 rfl).trans (by decide),
    ((sni_owner_change desktopQtTray windowQtTray "org.kde.StatusNotifierWatcher" ":1.5"
      "").2 (by decide) (by decide)).2.2.1,
    ((sni_owner_change desktopQtTray windowQtTray "org.kde.StatusNotifierWatcher" ""
      ":1.5").2 (by decide) (by decide)).2.2.1,
    ((sni_owner_change desktopQtTray windowQtTray "org.kde.StatusNotifierWatcher" ""
      ":1.5").2 (by decide) (by decide)).2.2.2.1,
    ((sni_owner_change desktopQtTray windowQtTray "org.kde.StatusNotifierWatcher" ""
      ":1.5").2 (by decide) (by decide)).2.2.2.2.1 (Or.inl (by decide)),
    ((sni_owner_change desktopQtTray windowQtTray "org.kde.StatusNotifierWatcher" ""
      ":1.5").2 (by decide) (by decide)).2.2.2.2.2.1 (by decide)⟩

/-- Counterexample to C16 as stated: the work mode is not window-only, the old owner
is non-empty, the new owner is empty and the Qt system tray is available.  The window
had no `trayIcon`; after the call it has one, shown, with the generated icon. -/
theorem sni_owner_gone_leaves_a_tray_icon :
    ({} : MainWindow).workMode ≠ .dbiwmWindowOnly
      ∧ (":1.5" : String).isEmpty = false ∧ ("" : String).isEmpty = true
      ∧ desktopQtTray.isSystemTrayAvailable = true
      ∧ ({} : MainWindow).trayIcon = none
      ∧ (handleSNIOwnerChanged desktopQtTray {} "org.kde.StatusNotifierWatcher" ":1.5" "").trayIcon
        = some { icon := .image 12000, visible := true } := by
  decide

end Platform
